import Mathlib

/-!
Verification of the NeXifyApp builder core against its specification.

The TypeScript sources are shallowly embedded:
* pure functions become Lean functions over `List Char` / `String`;
* JavaScript 32-bit signed integer arithmetic is modelled with `Int`
  and an explicit `toInt32` reduction;
* LLM/model calls, which are external, become oracle parameters;
* fallible operations return `Option` / `Except`.
-/

namespace NexifyApp

/-! ## JavaScript string primitives -/

/-- Does `sub` occur as a prefix of `hay`? (helper for substring search). -/
def startsL : List Char → List Char → Bool
  | [], _ => true
  | _ :: _, [] => false
  | a :: as, b :: bs => a == b && startsL as bs

/-- Does `sub` occur somewhere inside `hay`? Models JavaScript
`hay.includes(sub)` / `String.prototype.indexOf(sub) >= 0`. -/
def hasSub (hay sub : List Char) : Bool :=
  match hay with
  | [] => startsL sub []
  | _ :: cs => startsL sub hay || hasSub cs sub

/-- `hay.includes(sub)` on strings. -/
def sContains (hay sub : String) : Bool := hasSub hay.data sub.data

/-- `path.endsWith(suffix)`. -/
def sEndsWith (s suffix : String) : Bool := startsL suffix.data.reverse s.data.reverse

/-! ## extractJSON (src/src/lib/jsonParser.ts, lines 10-52)

A left-to-right scan over the characters tracking `braceCount`,
`startIndex`, `inString` and `escapeNext`, returning the substring from
the first recorded `{` to the `}` that brings the count to zero. -/

/-- The scanning loop of `extractJSON`: arguments are the remaining
characters, the current index `i`, `braceCount`, `startIndex`
(`none` = -1), `inString`, `escapeNext`; the result is the pair of
indices (start, end of match) if the scan returns early. -/
def scanJSON : List Char → Nat → Int → Option Nat → Bool → Bool → Option (Nat × Nat)
  | [], _, _, _, _, _ => none
  | c :: cs, i, brace, start, inStr, esc =>
    if esc then scanJSON cs (i + 1) brace start inStr false
    else if c = '\\' then scanJSON cs (i + 1) brace start inStr true
    else if c = '\"' then scanJSON cs (i + 1) brace start (!inStr) false
    else if inStr then scanJSON cs (i + 1) brace start inStr false
    else if c = '{' then
      scanJSON cs (i + 1) (brace + 1) (if start.isNone then some i else start) false false
    else if c = '}' then
      if brace - 1 = 0 then
        match start with
        | some s => some (s, i)
        | none => scanJSON cs (i + 1) (brace - 1) start false false
      else scanJSON cs (i + 1) (brace - 1) start false false
    else scanJSON cs (i + 1) brace start false false

/-- `extractJSON(text)`: returns `text.substring(startIndex, i + 1)` on an
early return of the scan, and `null` (here `none`) otherwise. -/
def extractJSON (text : String) : Option String :=
  match scanJSON text.data 0 0 none false false with
  | some (s, e) => some (String.mk ((text.data.drop s).take (e + 1 - s)))
  | none => none

/-! ## A JSON value type with a serializer

Used to express "a well-formed JSON object embedded in text": the class of
embedded objects is `Json.obj` values rendered by `Json.serialize`. -/

mutual
inductive Json where
  | null : Json
  | bool : Bool → Json
  | num : Int → Json
  | str : String → Json
  | arr : JsonArr → Json
  | obj : JsonObj → Json
  deriving DecidableEq

inductive JsonArr where
  | nil : JsonArr
  | cons : Json → JsonArr → JsonArr
  deriving DecidableEq

inductive JsonObj where
  | nil : JsonObj
  | cons : String → Json → JsonObj → JsonObj
  deriving DecidableEq
end

/-- Hexadecimal digit character (lower case). -/
def hexDig (n : Nat) : Char := if n < 10 then Char.ofNat (48 + n) else Char.ofNat (87 + n)

/-- JSON string escaping of one character: `"` and `\` get a backslash,
control characters are emitted as `\u00XX`, everything else is literal. -/
def escChar (c : Char) : List Char :=
  if c = '\"' ∨ c = '\\' then ['\\', c]
  else if c.toNat < 32 then ['\\', 'u', '0', '0', hexDig (c.toNat / 16), hexDig (c.toNat % 16)]
  else [c]

/-- JSON string-body escaping. -/
def escStr (s : List Char) : List Char := (s.map escChar).flatten

/-- Serialized JSON string literal (quotes included). -/
def serStr (s : String) : List Char := '\"' :: (escStr s.data ++ ['\"'])

/-- Decimal digits of a natural number, fuel-based so that it reduces in
the kernel (the fuel `n + 1` always suffices since `n / 10 < n`). -/
def natDecAux : Nat → Nat → List Char
  | 0, _ => []
  | fuel + 1, n =>
    if n < 10 then [Char.ofNat (48 + n)]
    else natDecAux fuel (n / 10) ++ [Char.ofNat (48 + n % 10)]

/-- Decimal digits of a natural number. -/
def natDec (n : Nat) : List Char := natDecAux (n + 1) n

/-- Decimal rendering of an integer. -/
def intDec (n : Int) : List Char :=
  if n < 0 then '-' :: natDec n.natAbs else natDec n.natAbs

mutual
/-- Canonical serialization of a JSON value. -/
def serJson : Json → List Char
  | .null => ['n', 'u', 'l', 'l']
  | .bool true => 't' :: ['r', 'u', 'e']
  | .bool false => 'f' :: ['a', 'l', 's', 'e']
  | .num n => intDec n
  | .str s => serStr s
  | .arr a => '[' :: (serArr a ++ [']'])
  | .obj o => '{' :: (serObj o ++ ['}'])

/-- Serialization of the body of a JSON array (no brackets). -/
def serArr : JsonArr → List Char
  | .nil => []
  | .cons v tl =>
    serJson v ++ (match tl with | .nil => [] | .cons _ _ => [',']) ++ serArr tl

/-- Serialization of the body of a JSON object (no braces). -/
def serObj : JsonObj → List Char
  | .nil => []
  | .cons k v tl =>
    serStr k ++ ':' :: serJson v ++ (match tl with | .nil => [] | .cons _ _ _ => [',']) ++ serObj tl
end

/-- Serialization of a JSON value as a string. -/
def Json.serialize (j : Json) : String := String.mk (serJson j)

/-! ## Lemmas about the extractJSON scan -/

/-- A character that the scan treats as inert in every state. -/
def plainB (c : Char) : Bool := !(c == '{' || c == '}' || c == '\"' || c == '\\')

theorem plainB_spec {c : Char} (h : plainB c = true) :
    c ≠ '{' ∧ c ≠ '}' ∧ c ≠ '\"' ∧ c ≠ '\\' := by
  simp [plainB, not_or] at h
  exact ⟨h.1.1.1, h.1.1.2, h.1.2, h.2⟩

theorem scan_step_plain {c : Char} (h : plainB c = true) (l : List Char)
    (i : Nat) (b : Int) (st : Option Nat) (instr : Bool) :
    scanJSON (c :: l) i b st instr false = scanJSON l (i + 1) b st instr false := by
  obtain ⟨h1, h2, h3, h4⟩ := plainB_spec h
  cases instr <;> simp [scanJSON, h1, h2, h3, h4]

theorem scan_step_instr {c : Char} (h1 : c ≠ '\\') (h2 : c ≠ '\"') (l : List Char)
    (i : Nat) (b : Int) (st : Option Nat) :
    scanJSON (c :: l) i b st true false = scanJSON l (i + 1) b st true false := by
  simp [scanJSON, h1, h2]

theorem scan_step_quote (l : List Char) (i : Nat) (b : Int) (st : Option Nat) (instr : Bool) :
    scanJSON ('\"' :: l) i b st instr false = scanJSON l (i + 1) b st (!instr) false := rfl

theorem scan_step_bslash (l : List Char) (i : Nat) (b : Int) (st : Option Nat) (instr : Bool) :
    scanJSON ('\\' :: l) i b st instr false = scanJSON l (i + 1) b st instr true := rfl

theorem scan_step_esc (c : Char) (l : List Char) (i : Nat) (b : Int) (st : Option Nat)
    (instr : Bool) :
    scanJSON (c :: l) i b st instr true = scanJSON l (i + 1) b st instr false := rfl

theorem scan_step_open (l : List Char) (i : Nat) (b : Int) (s : Nat) :
    scanJSON ('{' :: l) i b (some s) false false
      = scanJSON l (i + 1) (b + 1) (some s) false false := rfl

theorem scan_step_open_none (l : List Char) (i : Nat) (b : Int) :
    scanJSON ('{' :: l) i b none false false
      = scanJSON l (i + 1) (b + 1) (some i) false false := rfl

theorem scan_step_close {b : Int} (h : ¬b - 1 = 0) (l : List Char) (i : Nat)
    (st : Option Nat) :
    scanJSON ('}' :: l) i b st false false
      = scanJSON l (i + 1) (b - 1) st false false := by
  simp [scanJSON, h]

theorem scan_step_close_ret (l : List Char) (i : Nat) (s : Nat) :
    scanJSON ('}' :: l) i 1 (some s) false false = some (s, i) := rfl

theorem scan_chunk_plain {l : List Char} (h : ∀ c ∈ l, plainB c = true) :
    ∀ (rest : List Char) (i : Nat) (b : Int) (st : Option Nat) (instr : Bool),
    scanJSON (l ++ rest) i b st instr false = scanJSON rest (i + l.length) b st instr false := by
  induction l with
  | nil => intro rest i b st instr; simp
  | cons c t ih =>
    intro rest i b st instr
    have hc := h c (by simp)
    have ht : ∀ x ∈ t, plainB x = true := fun x hx => h x (by simp [hx])
    rw [List.cons_append, scan_step_plain hc, ih ht]
    congr 1
    simp only [List.length_cons]
    omega

theorem scan_chunk_escChar (c : Char) (rest : List Char) (i : Nat) (b : Int)
    (st : Option Nat) :
    scanJSON (escChar c ++ rest) i b st true false
      = scanJSON rest (i + (escChar c).length) b st true false := by
  have hhex : ∀ n, n < 16 → (hexDig n ≠ '\\' ∧ hexDig n ≠ '\"') := by decide
  unfold escChar
  split
  · rw [show ['\\', c] ++ rest = '\\' :: (c :: rest) from rfl, scan_step_bslash, scan_step_esc]
    congr 1
  · split
    case isTrue h2 =>
      have hd1 := hhex (c.toNat / 16) (by omega)
      have hd2 := hhex (c.toNat % 16) (by omega)
      rw [show ['\\', 'u', '0', '0', hexDig (c.toNat / 16), hexDig (c.toNat % 16)] ++ rest
            = '\\' :: 'u' :: '0' :: '0' :: hexDig (c.toNat / 16) :: hexDig (c.toNat % 16) :: rest
          from rfl,
        scan_step_bslash, scan_step_esc,
        scan_step_instr (by decide) (by decide),
        scan_step_instr (by decide) (by decide),
        scan_step_instr hd1.1 hd1.2,
        scan_step_instr hd2.1 hd2.2]
      congr 1
    case isFalse h1 h2 =>
      have hne : c ≠ '\"' ∧ c ≠ '\\' := by
        constructor <;> intro hcc <;> exact h1 (by simp [hcc])
      rw [show [c] ++ rest = c :: rest from rfl, scan_step_instr hne.2 hne.1]
      congr 1

theorem scan_chunk_escStr (s : List Char) :
    ∀ (rest : List Char) (i : Nat) (b : Int) (st : Option Nat),
    scanJSON (escStr s ++ rest) i b st true false
      = scanJSON rest (i + (escStr s).length) b st true false := by
  induction s with
  | nil => intro rest i b st; simp [escStr]
  | cons c t ih =>
    intro rest i b st
    have hE : escStr (c :: t) = escChar c ++ escStr t := by simp [escStr]
    rw [hE, List.append_assoc, scan_chunk_escChar, ih]
    congr 1
    simp only [List.length_append]
    omega

theorem scan_chunk_serStr (s : String) (rest : List Char) (i : Nat) (b : Int)
    (st : Option Nat) :
    scanJSON (serStr s ++ rest) i b st false false
      = scanJSON rest (i + (serStr s).length) b st false false := by
  rw [show serStr s ++ rest = '\"' :: (escStr s.data ++ ('\"' :: rest)) by simp [serStr]]
  rw [scan_step_quote]
  simp only [Bool.not_false]
  rw [scan_chunk_escStr]
  rw [scan_step_quote]
  simp only [Bool.not_true]
  congr 1
  simp [serStr]
  omega

theorem natDecAux_plain (fuel : Nat) : ∀ (n : Nat), ∀ c ∈ natDecAux fuel n, plainB c = true := by
  induction fuel with
  | zero => intro n c hc; simp [natDecAux] at hc
  | succ f ih =>
    intro n c hc
    have hdig : ∀ k, k < 10 → plainB (Char.ofNat (48 + k)) = true := by decide
    unfold natDecAux at hc
    split at hc
    · simp at hc
      subst hc
      exact hdig n (by omega)
    · simp at hc
      rcases hc with hc | hc
      · exact ih _ c hc
      · subst hc
        exact hdig (n % 10) (by omega)

theorem intDec_plain (n : Int) : ∀ c ∈ intDec n, plainB c = true := by
  intro c hc
  unfold intDec at hc
  split at hc
  · simp at hc
    rcases hc with hc | hc
    · subst hc; decide
    · exact natDecAux_plain _ _ c hc
  · exact natDecAux_plain _ _ c hc

mutual
theorem scan_serJson (v : Json) :
    ∀ (rest : List Char) (i : Nat) (b : Int) (s0 : Nat), 1 ≤ b →
    scanJSON (serJson v ++ rest) i b (some s0) false false
      = scanJSON rest (i + (serJson v).length) b (some s0) false false := by
  cases v with
  | null =>
    intro rest i b s0 _
    exact scan_chunk_plain (by decide) rest i b (some s0) false
  | bool bv =>
    intro rest i b s0 _
    cases bv
    · exact scan_chunk_plain (by decide) rest i b (some s0) false
    · exact scan_chunk_plain (by decide) rest i b (some s0) false
  | num n =>
    intro rest i b s0 _
    exact scan_chunk_plain (intDec_plain n) rest i b (some s0) false
  | str s =>
    intro rest i b s0 _
    exact scan_chunk_serStr s rest i b (some s0)
  | arr a =>
    intro rest i b s0 hb
    rw [show serJson (.arr a) ++ rest = '[' :: (serArr a ++ (']' :: rest)) by
          simp [serJson]]
    rw [scan_step_plain (by decide)]
    rw [scan_serArr a (']' :: rest) (i + 1) b s0 hb]
    rw [scan_step_plain (by decide)]
    congr 1
    simp [serJson]
    omega
  | obj o =>
    intro rest i b s0 hb
    rw [show serJson (.obj o) ++ rest = '{' :: (serObj o ++ ('}' :: rest)) by
          simp [serJson]]
    rw [scan_step_open]
    rw [scan_serObj o ('}' :: rest) (i + 1) (b + 1) s0 (by omega)]
    rw [scan_step_close (show ¬(b + 1) - 1 = 0 by omega)]
    rw [show (b : Int) + 1 - 1 = b by ring]
    congr 1
    simp [serJson]
    omega

theorem scan_serArr (a : JsonArr) :
    ∀ (rest : List Char) (i : Nat) (b : Int) (s0 : Nat), 1 ≤ b →
    scanJSON (serArr a ++ rest) i b (some s0) false false
      = scanJSON rest (i + (serArr a).length) b (some s0) false false := by
  cases a with
  | nil => intro rest i b s0 _; simp [serArr]
  | cons v tl =>
    intro rest i b s0 hb
    cases tl with
    | nil =>
      rw [show serArr (.cons v .nil) ++ rest = serJson v ++ rest by simp [serArr]]
      rw [scan_serJson v rest i b s0 hb]
      congr 1
      simp [serArr]
    | cons w tw =>
      rw [show serArr (.cons v (.cons w tw)) ++ rest
            = serJson v ++ (',' :: (serArr (.cons w tw) ++ rest)) by
          simp [serArr]]
      rw [scan_serJson v _ i b s0 hb]
      rw [scan_step_plain (by decide)]
      rw [scan_serArr (.cons w tw) rest _ b s0 hb]
      congr 1
      simp [serArr]
      omega

theorem scan_serObj (o : JsonObj) :
    ∀ (rest : List Char) (i : Nat) (b : Int) (s0 : Nat), 1 ≤ b →
    scanJSON (serObj o ++ rest) i b (some s0) false false
      = scanJSON rest (i + (serObj o).length) b (some s0) false false := by
  cases o with
  | nil => intro rest i b s0 _; simp [serObj]
  | cons k v tl =>
    intro rest i b s0 hb
    cases tl with
    | nil =>
      rw [show serObj (.cons k v .nil) ++ rest = serStr k ++ (':' :: (serJson v ++ rest)) by
            simp [serObj]]
      rw [scan_chunk_serStr k]
      rw [scan_step_plain (by decide)]
      rw [scan_serJson v rest _ b s0 hb]
      congr 1
      simp [serObj]
      omega
    | cons k2 v2 t2 =>
      rw [show serObj (.cons k v (.cons k2 v2 t2)) ++ rest
            = serStr k ++ (':' :: (serJson v ++ (',' :: (serObj (.cons k2 v2 t2) ++ rest)))) by
          simp [serObj]]
      rw [scan_chunk_serStr k]
      rw [scan_step_plain (by decide)]
      rw [scan_serJson v _ _ b s0 hb]
      rw [scan_step_plain (by decide)]
      rw [scan_serObj (.cons k2 v2 t2) rest _ b s0 hb]
      congr 1
      simp [serObj]
      omega
end

/-- C1 (amended): if the text before an embedded serialized JSON object
contains no brace, quote or backslash character, `extractJSON` returns
exactly the serialized object (the minimal balanced substring), whatever
follows it. -/
theorem extractJSON_embedded_object (pre post : String) (o : JsonObj)
    (hpre : ∀ c ∈ pre.data, plainB c = true) :
    extractJSON (pre ++ (Json.obj o).serialize ++ post) = some ((Json.obj o).serialize) := by
  have hdata : (pre ++ (Json.obj o).serialize ++ post).data
      = pre.data ++ (serJson (Json.obj o) ++ post.data) := by
    simp [Json.serialize]
  unfold extractJSON
  rw [hdata]
  rw [scan_chunk_plain hpre]
  rw [show serJson (Json.obj o) ++ post.data = '{' :: (serObj o ++ ('}' :: post.data)) by
        simp [serJson]]
  rw [scan_step_open_none]
  rw [scan_serObj o ('}' :: post.data) (0 + pre.data.length + 1) (0 + 1) (0 + pre.data.length)
        (by norm_num)]
  rw [show (0 : Int) + 1 = 1 by norm_num]
  rw [scan_step_close_ret]
  have htake : 0 + pre.data.length + 1 + (serObj o).length + 1 - (0 + pre.data.length)
      = (serJson (Json.obj o)).length := by
    simp [serJson]
    omega
  simp only [Nat.zero_add]
  simp only [Nat.zero_add] at htake
  rw [show pre.data.length + 1 + (serObj o).length + 1 - pre.data.length
        = (serJson (Json.obj o)).length from htake]
  rw [show ('{' :: (serObj o ++ '}' :: post.data)) = serJson (Json.obj o) ++ post.data by
        simp [serJson]]
  rw [show (pre.data ++ (serJson (Json.obj o) ++ post.data)).drop pre.data.length
        = serJson (Json.obj o) ++ post.data from List.drop_left _ _]
  rw [show (serJson (Json.obj o) ++ post.data).take (serJson (Json.obj o)).length
        = serJson (Json.obj o) from List.take_left _ _]
  rfl

/-- C1 counterexample: the text `"} {"a":1}"` contains the well-formed
embedded JSON object `{"a":1}` (which extractJSON slices correctly when
standing alone), yet on the full text the stray leading `}` makes the brace
counter pass through -1 and `extractJSON` returns none instead of the
minimal balanced substring. -/
theorem extractJSON_stray_prefix_cex :
    (Json.obj (.cons "a" (.num 1) .nil)).serialize = "\x7b\x22a\x22:1\x7d"
    ∧ extractJSON ("\x7d " ++ "\x7b\x22a\x22:1\x7d") = none
    ∧ extractJSON "\x7b\x22a\x22:1\x7d" = some "\x7b\x22a\x22:1\x7d" :=
  ⟨rfl, rfl, rfl⟩

/-- Witness for `extractJSON_embedded_object` at the spec's own example:
noise before, nested object with braces inside a string literal, trailing
text after. -/
theorem extractJSON_embedded_object_witness :
    (∀ c ∈ ("noise " : String).data, plainB c = true)
    ∧ extractJSON ("noise "
          ++ (Json.obj (.cons "a" (.obj (.cons "b" (.str "\x7dnot a brace\x7b") .nil)) .nil)).serialize
          ++ " trailing")
        = some ((Json.obj (.cons "a" (.obj (.cons "b" (.str "\x7dnot a brace\x7b") .nil)) .nil)).serialize) :=
  ⟨by decide, extractJSON_embedded_object "noise " " trailing" _ (by decide)⟩

/-! ## A model of JSON.parse (for safeParseJSON / parseJSONFromText)

Fuel-based recursive-descent parser. Narrowings of the model, none of
which the claims depend on: numeric literals are limited to integers
(fraction/exponent forms are treated as parse failures), and escape
sequences in the surrogate range are rejected (Lean `Char` cannot hold
lone surrogates). -/

/-- JSON whitespace as accepted by JSON.parse. -/
def isJsonWs (c : Char) : Bool := c = ' ' || c = '\t' || c = '\n' || c = '\r'

/-- Skip leading JSON whitespace. -/
def skipWsL (l : List Char) : List Char := l.dropWhile isJsonWs

/-- Value of a hexadecimal digit. -/
def hexVal (c : Char) : Option Nat :=
  if '0' ≤ c ∧ c ≤ '9' then some (c.toNat - 48)
  else if 'a' ≤ c ∧ c ≤ 'f' then some (c.toNat - 87)
  else if 'A' ≤ c ∧ c ≤ 'F' then some (c.toNat - 55)
  else none

/-- Parse the body of a JSON string literal after the opening quote,
accumulating the decoded characters in reverse. -/
def parseStrBody : Nat → List Char → List Char → Option (String × List Char)
  | 0, _, _ => none
  | fuel + 1, acc, l =>
    match l with
    | '\"' :: r => some (String.mk acc.reverse, r)
    | '\\' :: e :: r =>
      match e with
      | '\"' => parseStrBody fuel ('\"' :: acc) r
      | '\\' => parseStrBody fuel ('\\' :: acc) r
      | '/' => parseStrBody fuel ('/' :: acc) r
      | 'b' => parseStrBody fuel ('\x08' :: acc) r
      | 'f' => parseStrBody fuel ('\x0c' :: acc) r
      | 'n' => parseStrBody fuel ('\n' :: acc) r
      | 'r' => parseStrBody fuel ('\r' :: acc) r
      | 't' => parseStrBody fuel ('\t' :: acc) r
      | 'u' =>
        match r with
        | h1 :: h2 :: h3 :: h4 :: r2 =>
          match hexVal h1, hexVal h2, hexVal h3, hexVal h4 with
          | some a, some b, some c, some d =>
            let n := ((a * 16 + b) * 16 + c) * 16 + d
            if n.isValidChar then parseStrBody fuel (Char.ofNat n :: acc) r2
            else none
          | _, _, _, _ => none
        | _ => none
      | _ => none
    | c :: r => if c.toNat < 32 then none else parseStrBody fuel (c :: acc) r
    | [] => none

/-- Digits of a decimal literal to a natural number. -/
def digitsToNat (ds : List Char) : Nat := ds.foldl (fun acc c => acc * 10 + (c.toNat - 48)) 0

/-- Parse a JSON number (integers only, see the section comment). -/
def parseNumL (l : List Char) : Option (Json × List Char) :=
  let neg := match l with | '-' :: _ => true | _ => false
  let l1 := match l with | '-' :: r => r | _ => l
  let ds := l1.takeWhile Char.isDigit
  let r := l1.dropWhile Char.isDigit
  if ds.isEmpty then none
  else if 1 < ds.length ∧ ds.headD '0' = '0' then none
  else
    match r with
    | '.' :: _ => none
    | 'e' :: _ => none
    | 'E' :: _ => none
    | _ =>
      let n : Int := Int.ofNat (digitsToNat ds)
      some (.num (if neg then -n else n), r)

mutual
/-- Parse a JSON value (recursive descent, fuel-based). -/
def parseVal : Nat → List Char → Option (Json × List Char)
  | 0, _ => none
  | fuel + 1, l =>
    match skipWsL l with
    | '{' :: r =>
      match parseObjBody fuel true r with
      | some (o, r2) => some (.obj o, r2)
      | none => none
    | '[' :: r =>
      match parseArrBody fuel true r with
      | some (a, r2) => some (.arr a, r2)
      | none => none
    | '\"' :: r =>
      match parseStrBody (fuel + 1) [] r with
      | some (s, r2) => some (.str s, r2)
      | none => none
    | 't' :: 'r' :: 'u' :: 'e' :: r => some (.bool true, r)
    | 'f' :: 'a' :: 'l' :: 's' :: 'e' :: r => some (.bool false, r)
    | 'n' :: 'u' :: 'l' :: 'l' :: r => some (.null, r)
    | l2 => parseNumL l2

/-- Parse the members of a JSON object after `{` (or after a `,` when
`allowClose` is false, since JSON forbids a trailing comma). -/
def parseObjBody : Nat → Bool → List Char → Option (JsonObj × List Char)
  | 0, _, _ => none
  | fuel + 1, allowClose, l =>
    match skipWsL l with
    | '}' :: r => if allowClose then some (.nil, r) else none
    | '\"' :: r =>
      match parseStrBody (fuel + 1) [] r with
      | some (k, r1) =>
        match skipWsL r1 with
        | ':' :: r2 =>
          match parseVal fuel r2 with
          | some (v, r3) =>
            match skipWsL r3 with
            | ',' :: r4 =>
              match parseObjBody fuel false r4 with
              | some (tl, r5) => some (.cons k v tl, r5)
              | none => none
            | '}' :: r4 => some (.cons k v .nil, r4)
            | _ => none
          | none => none
        | _ => none
      | none => none
    | _ => none

/-- Parse the elements of a JSON array after `[` (or after a `,`). -/
def parseArrBody : Nat → Bool → List Char → Option (JsonArr × List Char)
  | 0, _, _ => none
  | fuel + 1, allowClose, l =>
    match skipWsL l with
    | ']' :: r => if allowClose then some (.nil, r) else none
    | l2 =>
      match parseVal fuel l2 with
      | some (v, r1) =>
        match skipWsL r1 with
        | ',' :: r2 =>
          match parseArrBody fuel false r2 with
          | some (tl, r3) => some (.cons v tl, r3)
          | none => none
        | ']' :: r2 => some (.cons v .nil, r2)
        | _ => none
      | none => none
end

/-- The model of `JSON.parse`: parse one value and require that only
whitespace remains. -/
def Json.parse (s : String) : Option Json :=
  match parseVal (2 * s.data.length + 4) s.data with
  | some (v, r) => if (skipWsL r).isEmpty then some v else none
  | none => none

/-! ## validateFields / safeParseJSON / parseJSONFromText
(src/src/lib/jsonParser.ts, lines 57-103) -/

/-- Lookup of a field on a JSON object; later duplicate keys win, as in
JavaScript. -/
def objFind : JsonObj → String → Option Json
  | .nil, _ => none
  | .cons k v tl, key =>
    match objFind tl key with
    | some r => some r
    | none => if k = key then some v else none

/-- `obj[field]`. Lookup on a non-object value is modelled as absent;
in JavaScript only `null`/`undefined` would throw here, which the
TypeScript signature (`requiredFields : (keyof T)[]`) rules out. -/
def getField : Json → String → Option Json
  | .obj o, key => objFind o key
  | _, _ => none

/-- `validateFields`: every required field is present and neither
`undefined`, `null` nor the empty string. -/
def validateFields (v : Json) (requiredFields : List String) : Bool :=
  requiredFields.all fun f =>
    match getField v f with
    | some x => !(x == Json.null) && !(x == Json.str "")
    | none => false

/-- `safeParseJSON`: JSON.parse with the fallback on failure. -/
def safeParseJSON (s : String) (fallback : Json) : Json := (Json.parse s).getD fallback

/-- `parseJSONFromText`: extract, parse, validate; any failure yields the
fallback unchanged. -/
def parseJSONFromText (text : String) (requiredFields : List String) (fallback : Json) : Json :=
  match extractJSON text with
  | none => fallback
  | some js =>
    let parsed := safeParseJSON js fallback
    if validateFields parsed requiredFields then parsed else fallback

/-- C2: whenever extraction, parsing or required-field validation fails,
`parseJSONFromText` returns the fallback itself (no partial merge); the
function is total, so no exception reaches the caller. -/
theorem parseJSONFromText_returns_fallback (text : String) (requiredFields : List String)
    (F : Json)
    (h : extractJSON text = none
      ∨ ∃ js, extractJSON text = some js
          ∧ (Json.parse js = none
             ∨ validateFields ((Json.parse js).getD F) requiredFields = false)) :
    parseJSONFromText text requiredFields F = F := by
  unfold parseJSONFromText
  rcases h with h | ⟨js, hjs, h2⟩
  · rw [h]
  · rw [hjs]
    rcases h2 with h2 | h2
    · simp [safeParseJSON, h2]
    · simp [safeParseJSON, h2]

/-- Witness for `parseJSONFromText_returns_fallback`: an input without any
JSON object, and an input whose object lacks the required field `a`; both
return the fallback untouched. -/
theorem parseJSONFromText_returns_fallback_witness :
    parseJSONFromText "kein json" ["a"] (Json.str "FB") = Json.str "FB"
    ∧ parseJSONFromText "x \x7b\x22b\x22:1\x7d y" ["a"] (Json.str "FB") = Json.str "FB" :=
  ⟨parseJSONFromText_returns_fallback _ _ _ (Or.inl rfl),
   parseJSONFromText_returns_fallback _ _ _ (Or.inr ⟨"\x7b\x22b\x22:1\x7d", rfl, Or.inr rfl⟩)⟩

/-! ## Designer.validateDesignSystem (src/unnamed/part_011, lines 279-345)

The runtime input of `validateDesignSystem` comes from parsed JSON, so any
field — top level or nested — can be absent; the model is a deep-partial
record. Only `colors` gets field-by-field defaulting in the source;
`typography` / `spacing` / `borderRadius` / `assets` are taken wholesale
with `||`. JavaScript `||` also treats a present empty string as falsy.
The TS field name `'2xl'` is rendered `x2l`. -/

structure PColors where
  primary : Option String
  secondary : Option String
  background : Option String
  surface : Option String
  text : Option String
  accent : Option String
  success : Option String
  warning : Option String
  error : Option String
  deriving DecidableEq

structure PFontSize where
  xs : Option String
  sm : Option String
  base : Option String
  lg : Option String
  xl : Option String
  x2l : Option String
  deriving DecidableEq

structure PTypography where
  fontFamily : Option String
  fontSize : Option PFontSize
  deriving DecidableEq

structure PSpacing where
  xs : Option String
  sm : Option String
  md : Option String
  lg : Option String
  xl : Option String
  deriving DecidableEq

structure PBorderRadius where
  sm : Option String
  md : Option String
  lg : Option String
  xl : Option String
  deriving DecidableEq

structure PDesignSystem where
  theme : Option String
  colors : Option PColors
  typography : Option PTypography
  spacing : Option PSpacing
  borderRadius : Option PBorderRadius
  assets : Option (List String)
  deriving DecidableEq

/-- JS truthiness of an optional string: `undefined` and `""` are falsy. -/
def strTruthy : Option String → Bool
  | some s => !(s == "")
  | none => false

/-- `a || d` on optional strings. -/
def jsOrStr (a d : Option String) : Option String := if strTruthy a then a else d

/-- The hardcoded default colors of `getDefaultDesignSystem`. -/
def defaultColors : PColors where
  primary := some "#0EA5E9"
  secondary := some "#94A3B8"
  background := some "#020408"
  surface := some "#0B0F17"
  text := some "#F8FAFC"
  accent := some "#0EA5E9"
  success := some "#10B981"
  warning := some "#F59E0B"
  error := some "#EF4444"

/-- `Designer.getDefaultDesignSystem` (every field populated). -/
def getDefaultDesignSystem : PDesignSystem where
  theme := some "NeXify Dark Premium"
  colors := some defaultColors
  typography := some
    { fontFamily := some "Inter"
      fontSize := some
        { xs := some "0.75rem", sm := some "0.875rem", base := some "1rem"
          lg := some "1.125rem", xl := some "1.25rem", x2l := some "1.5rem" } }
  spacing := some
    { xs := some "0.25rem", sm := some "0.5rem", md := some "1rem"
      lg := some "1.5rem", xl := some "2rem" }
  borderRadius := some
    { sm := some "0.25rem", md := some "0.5rem", lg := some "0.75rem", xl := some "1rem" }
  assets := some ["logo.png", "hero-bg.png", "feature-illustration.png"]

/-- `Designer.validateDesignSystem`: colors are filled role by role via
optional chaining and `||`; the other sections are `system.x || default.x`
wholesale. -/
def validateDesignSystem (system : PDesignSystem) : PDesignSystem where
  theme := jsOrStr system.theme getDefaultDesignSystem.theme
  colors := some
    { primary := jsOrStr (system.colors.bind PColors.primary) defaultColors.primary
      secondary := jsOrStr (system.colors.bind PColors.secondary) defaultColors.secondary
      background := jsOrStr (system.colors.bind PColors.background) defaultColors.background
      surface := jsOrStr (system.colors.bind PColors.surface) defaultColors.surface
      text := jsOrStr (system.colors.bind PColors.text) defaultColors.text
      accent := jsOrStr (system.colors.bind PColors.accent) defaultColors.accent
      success := jsOrStr (system.colors.bind PColors.success) defaultColors.success
      warning := jsOrStr (system.colors.bind PColors.warning) defaultColors.warning
      error := jsOrStr (system.colors.bind PColors.error) defaultColors.error }
  typography := if system.typography.isSome then system.typography
                else getDefaultDesignSystem.typography
  spacing := if system.spacing.isSome then system.spacing else getDefaultDesignSystem.spacing
  borderRadius := if system.borderRadius.isSome then system.borderRadius
                  else getDefaultDesignSystem.borderRadius
  assets := if system.assets.isSome then system.assets else getDefaultDesignSystem.assets

/-- The colors record of a design system (always present on outputs of
`validateDesignSystem`). -/
def colorsOf (d : PDesignSystem) : PColors :=
  d.colors.getD ⟨none, none, none, none, none, none, none, none, none⟩

theorem jsOrStr_truthy_of_default {a d : Option String} (hd : strTruthy d = true) :
    strTruthy (jsOrStr a d) = true := by
  unfold jsOrStr
  split
  · assumption
  · exact hd

theorem jsOrStr_eq_of_truthy {a d : Option String} (h : strTruthy a = true) :
    jsOrStr a d = a := by
  unfold jsOrStr
  rw [if_pos h]

/-- C6 counterexample: on the input with the present (but empty) `theme`
and a partially populated `typography`, the present `theme` is overwritten
by the default (so a present field is not preserved), and the output
`typography.fontSize` stays absent (so not every nested field is
populated). -/
theorem validateDesignSystem_cex :
    (validateDesignSystem
        { theme := some "", colors := none
          typography := some { fontFamily := some "Arial", fontSize := none }
          spacing := none, borderRadius := none, assets := none }).theme
      = some "NeXify Dark Premium"
    ∧ (validateDesignSystem
        { theme := some "", colors := none
          typography := some { fontFamily := some "Arial", fontSize := none }
          spacing := none, borderRadius := none, assets := none }).typography
      = some { fontFamily := some "Arial", fontSize := none } := by
  constructor <;> rfl

/-- C6 (amended): the output of `validateDesignSystem` always has the
top-level fields and all nine color roles populated (non-empty); a present
non-empty `theme` and present non-empty color roles are preserved, and the
`typography` / `spacing` / `borderRadius` / `assets` sections are preserved
exactly as given whenever present (even partially populated) and replaced
wholesale by the hardcoded default section when absent. -/
theorem validateDesignSystem_amended (input : PDesignSystem) :
    (strTruthy (validateDesignSystem input).theme = true
      ∧ (validateDesignSystem input).colors.isSome = true
      ∧ strTruthy (colorsOf (validateDesignSystem input)).primary = true
      ∧ strTruthy (colorsOf (validateDesignSystem input)).secondary = true
      ∧ strTruthy (colorsOf (validateDesignSystem input)).background = true
      ∧ strTruthy (colorsOf (validateDesignSystem input)).surface = true
      ∧ strTruthy (colorsOf (validateDesignSystem input)).text = true
      ∧ strTruthy (colorsOf (validateDesignSystem input)).accent = true
      ∧ strTruthy (colorsOf (validateDesignSystem input)).success = true
      ∧ strTruthy (colorsOf (validateDesignSystem input)).warning = true
      ∧ strTruthy (colorsOf (validateDesignSystem input)).error = true
      ∧ (validateDesignSystem input).typography.isSome = true
      ∧ (validateDesignSystem input).spacing.isSome = true
      ∧ (validateDesignSystem input).borderRadius.isSome = true
      ∧ (validateDesignSystem input).assets.isSome = true)
    ∧ (strTruthy input.theme = true → (validateDesignSystem input).theme = input.theme)
    ∧ (∀ pc : PColors, input.colors = some pc →
        (strTruthy pc.primary = true → (colorsOf (validateDesignSystem input)).primary = pc.primary)
        ∧ (strTruthy pc.secondary = true
            → (colorsOf (validateDesignSystem input)).secondary = pc.secondary)
        ∧ (strTruthy pc.background = true
            → (colorsOf (validateDesignSystem input)).background = pc.background)
        ∧ (strTruthy pc.surface = true → (colorsOf (validateDesignSystem input)).surface = pc.surface)
        ∧ (strTruthy pc.text = true → (colorsOf (validateDesignSystem input)).text = pc.text)
        ∧ (strTruthy pc.accent = true → (colorsOf (validateDesignSystem input)).accent = pc.accent)
        ∧ (strTruthy pc.success = true → (colorsOf (validateDesignSystem input)).success = pc.success)
        ∧ (strTruthy pc.warning = true → (colorsOf (validateDesignSystem input)).warning = pc.warning)
        ∧ (strTruthy pc.error = true → (colorsOf (validateDesignSystem input)).error = pc.error))
    ∧ (input.typography.isSome = true → (validateDesignSystem input).typography = input.typography)
    ∧ (input.spacing.isSome = true → (validateDesignSystem input).spacing = input.spacing)
    ∧ (input.borderRadius.isSome = true
        → (validateDesignSystem input).borderRadius = input.borderRadius)
    ∧ (input.assets.isSome = true → (validateDesignSystem input).assets = input.assets)
    ∧ (input.typography = none
        → (validateDesignSystem input).typography = getDefaultDesignSystem.typography)
    ∧ (input.spacing = none → (validateDesignSystem input).spacing = getDefaultDesignSystem.spacing)
    ∧ (input.borderRadius = none
        → (validateDesignSystem input).borderRadius = getDefaultDesignSystem.borderRadius)
    ∧ (input.assets = none → (validateDesignSystem input).assets = getDefaultDesignSystem.assets) := by
  refine ⟨⟨?_, rfl, ?_, ?_, ?_, ?_, ?_, ?_, ?_, ?_, ?_, ?_, ?_, ?_, ?_⟩,
      ?_, ?_, ?_, ?_, ?_, ?_, ?_, ?_, ?_, ?_⟩
  · exact jsOrStr_truthy_of_default (by decide)
  · exact jsOrStr_truthy_of_default (by decide)
  · exact jsOrStr_truthy_of_default (by decide)
  · exact jsOrStr_truthy_of_default (by decide)
  · exact jsOrStr_truthy_of_default (by decide)
  · exact jsOrStr_truthy_of_default (by decide)
  · exact jsOrStr_truthy_of_default (by decide)
  · exact jsOrStr_truthy_of_default (by decide)
  · exact jsOrStr_truthy_of_default (by decide)
  · exact jsOrStr_truthy_of_default (by decide)
  · simp [validateDesignSystem]
    split
    · assumption
    · rfl
  · simp [validateDesignSystem]
    split
    · assumption
    · rfl
  · simp [validateDesignSystem]
    split
    · assumption
    · rfl
  · simp [validateDesignSystem]
    split
    · assumption
    · rfl
  · intro h
    exact jsOrStr_eq_of_truthy h
  · intro pc hpc
    refine ⟨?_, ?_, ?_, ?_, ?_, ?_, ?_, ?_, ?_⟩ <;>
      · intro h
        simp [colorsOf, validateDesignSystem, hpc]
        rw [jsOrStr_eq_of_truthy h]
  · intro h
    simp [validateDesignSystem, h]
  · intro h
    simp [validateDesignSystem, h]
  · intro h
    simp [validateDesignSystem, h]
  · intro h
    simp [validateDesignSystem, h]
  · intro h
    simp [validateDesignSystem, h]
  · intro h
    simp [validateDesignSystem, h]
  · intro h
    simp [validateDesignSystem, h]
  · intro h
    simp [validateDesignSystem, h]

/-- Witness for `validateDesignSystem_amended` at a concrete input with a
present theme, one present color role, a present partial spacing and the
rest absent. -/
theorem validateDesignSystem_amended_witness :
    (validateDesignSystem
        { theme := some "Aurora"
          colors := some ⟨some "#123456", none, none, none, none, none, none, none, none⟩
          typography := none
          spacing := some ⟨some "1px", none, none, none, none⟩
          borderRadius := none, assets := none }).theme = some "Aurora"
    ∧ (colorsOf (validateDesignSystem
        { theme := some "Aurora"
          colors := some ⟨some "#123456", none, none, none, none, none, none, none, none⟩
          typography := none
          spacing := some ⟨some "1px", none, none, none, none⟩
          borderRadius := none, assets := none })).primary = some "#123456"
    ∧ (validateDesignSystem
        { theme := some "Aurora"
          colors := some ⟨some "#123456", none, none, none, none, none, none, none, none⟩
          typography := none
          spacing := some ⟨some "1px", none, none, none, none⟩
          borderRadius := none, assets := none }).typography
        = getDefaultDesignSystem.typography
    ∧ (validateDesignSystem
        { theme := some "Aurora"
          colors := some ⟨some "#123456", none, none, none, none, none, none, none, none⟩
          typography := none
          spacing := some ⟨some "1px", none, none, none, none⟩
          borderRadius := none, assets := none }).spacing
        = some ⟨some "1px", none, none, none, none⟩ := by
  have h := validateDesignSystem_amended
    { theme := some "Aurora"
      colors := some ⟨some "#123456", none, none, none, none, none, none, none, none⟩
      typography := none
      spacing := some ⟨some "1px", none, none, none, none⟩
      borderRadius := none, assets := none }
  exact ⟨h.2.1 (by decide),
    ((h.2.2.1 _ rfl).1 (by decide)),
    h.2.2.2.2.2.2.2.1 rfl,
    h.2.2.2.2.1 rfl⟩

/-! ## QAAgent (src/unnamed/part_011, lines 425-639)

`CodeIssue` / `CodeReview` as in the source; `simpleCodeCheck` is the
deterministic fallback checker. The LLM path of `reviewCode` is modelled
as the pure post-processing of a model response string (lines 503-526),
with the JavaScript runtime values represented as `Json`. -/

structure CodeIssueL where
  type : String
  severity : String
  file : String
  line : Option Int
  message : String
  suggestion : Option String
  deriving DecidableEq

structure CodeReviewL where
  issues : List CodeIssueL
  score : Int
  passed : Bool
  suggestions : List String
  deriving DecidableEq

/-- The hardcoded-credential regex `/['"](sk-|hf_|AIza)/`: a quote
character directly followed by one of the three key prefixes. -/
def hasKeyPattern : List Char → Bool
  | [] => false
  | c :: cs =>
    ((c == '\'' || c == '\"')
      && (startsL "sk-".data cs || startsL "hf_".data cs || startsL "AIza".data cs))
    || hasKeyPattern cs

/-- `QAAgent.simpleCodeCheck` (lines 541-587). -/
def simpleCodeCheck (code filePath : String) : CodeReviewL :=
  let issues : List CodeIssueL :=
    (if sContains code "console.log(" && !sContains filePath ".test." then
      [{ type := "warning", severity := "low", file := filePath, line := none
         message := "console.log gefunden - sollte in Production entfernt werden"
         suggestion := some "Nutze ein Logging-System oder entferne console.log" }]
    else [])
    ++ (if hasKeyPattern code.data then
      [{ type := "error", severity := "critical", file := filePath, line := none
         message := "Hardcoded API-Key gefunden - Sicherheitsrisiko!"
         suggestion := some "Nutze Environment-Variablen oder das API-Key-Management-System" }]
    else [])
    ++ (if sContains code "await" && !sContains code "try" && !sContains code "catch" then
      [{ type := "warning", severity := "medium", file := filePath, line := none
         message := "Async Code ohne Error-Handling"
         suggestion := some "Füge try-catch Blöcke hinzu" }]
    else [])
  let criticalIssues := (issues.filter (fun i => i.severity == "critical")).length
  let highIssues := (issues.filter (fun i => i.severity == "high")).length
  { issues := issues
    score := max 0 (100 - (criticalIssues * 30 : Int) - (highIssues * 15) - (issues.length * 5))
    passed := criticalIssues == 0 && highIssues == 0
    suggestions := issues.filterMap (fun i =>
      match i.suggestion with
      | some s => if s == "" then none else some s
      | none => none) }

/-- Encode a `CodeIssue` record as the JSON value `JSON.parse` would have
produced for it (the `line` field is omitted when absent, as in
`simpleCodeCheck`'s object literals). -/
def encodeIssue (i : CodeIssueL) : Json :=
  .obj (.cons "type" (.str i.type)
    (.cons "severity" (.str i.severity)
      (.cons "file" (.str i.file)
        (.cons "message" (.str i.message)
          (match i.suggestion with
           | some s => .cons "suggestion" (.str s) .nil
           | none => .nil)))))

/-- Encode a list of issues as a JSON array. -/
def encodeIssueList : List CodeIssueL → JsonArr
  | [] => .nil
  | i :: t => .cons (encodeIssue i) (encodeIssueList t)

/-- Encode a list of strings as a JSON array. -/
def encodeStrList : List String → JsonArr
  | [] => .nil
  | s :: t => .cons (.str s) (encodeStrList t)

/-- Does the object have the key? -/
def objHas : JsonObj → String → Bool
  | .nil, _ => false
  | .cons k _ tl, key => k == key || objHas tl key

/-- Replace the value at every occurrence of the key (JavaScript objects
have unique keys; duplicates here only arise from the parser model and are
observationally merged by the last-wins `objFind`). -/
def objReplace : JsonObj → String → Json → JsonObj
  | .nil, _, _ => .nil
  | .cons k v0 tl, key, v =>
    .cons k (if k == key then v else v0) (objReplace tl key v)

/-- Append a member at the end (new JS property). -/
def objAppend : JsonObj → String → Json → JsonObj
  | .nil, key, v => .cons key v .nil
  | .cons k v0 tl, key, v => .cons k v0 (objAppend tl key v)

/-- JavaScript property assignment `obj[key] = v` on a JSON object. -/
def setField : Json → String → Json → Json
  | .obj o, key, v =>
    .obj (if objHas o key then objReplace o key v else
      match o with
      | .nil => .cons key v .nil
      | _ => objAppend o key v)
  | j, _, _ => j

/-- `Array.isArray(x)` on an optional JSON field. -/
def isArrJ : Option Json → Bool
  | some (.arr _) => true
  | _ => false

/-- `typeof x === 'boolean'`. -/
def isBoolJ : Option Json → Bool
  | some (.bool _) => true
  | _ => false

/-- `typeof x === 'number' && 0 <= x && x <= 100` (integer model). -/
def scoreOk : Option Json → Bool
  | some (.num n) => decide (0 ≤ n) && decide (n ≤ 100)
  | _ => false

/-- `QAAgent.reviewCode`'s handling of a model response (lines 503-526):
parse with the four required fields and the `simpleCodeCheck` review as
fallback, then patch each structurally invalid field from the fallback. -/
def processReview (content code filePath : String) : Json :=
  let fbR := simpleCodeCheck code filePath
  let fbIssues := Json.arr (encodeIssueList fbR.issues)
  let fbScore := Json.num fbR.score
  let fbPassed := Json.bool fbR.passed
  let fbSuggestions := Json.arr (encodeStrList fbR.suggestions)
  let fb := Json.obj (.cons "issues" fbIssues
    (.cons "score" fbScore (.cons "passed" fbPassed (.cons "suggestions" fbSuggestions .nil))))
  let r0 := parseJSONFromText content ["issues", "score", "passed", "suggestions"] fb
  let r1 := if isArrJ (getField r0 "issues") then r0 else setField r0 "issues" fbIssues
  let r2 := if scoreOk (getField r1 "score") then r1 else setField r1 "score" fbScore
  let r3 := if isBoolJ (getField r2 "passed") then r2 else setField r2 "passed" fbPassed
  let r4 := if isArrJ (getField r3 "suggestions") then r3
            else setField r3 "suggestions" fbSuggestions
  r4

/-- Is the issue's severity critical or high? -/
def sevBlockingJ (item : Json) : Bool :=
  getField item "severity" == some (Json.str "critical")
  || getField item "severity" == some (Json.str "high")

/-- All elements of a JSON array satisfy the predicate. -/
def arrAll (p : Json → Bool) : JsonArr → Bool
  | .nil => true
  | .cons v tl => p v && arrAll p tl

/-- "No issue in `issues` has severity critical or high" on a review value. -/
def issuesNoBlocking (r : Json) : Bool :=
  match getField r "issues" with
  | some (.arr items) => arrAll (fun it => !sevBlockingJ it) items
  | _ => false

set_option maxRecDepth 4000 in
/-- C4 counterexample: a well-formed LLM JSON response with `passed: true`
and a critical issue passes all of `reviewCode`'s structural checks and is
returned as-is, so `passed` is true while a critical issue is present —
the invariant fails for reviews built from well-formed LLM responses. -/
theorem reviewCode_trusts_wellformed_cex :
    getField (processReview
        "\x7b\x22issues\x22:[\x7b\x22type\x22:\x22error\x22,\x22severity\x22:\x22critical\x22,\x22file\x22:\x22a.ts\x22,\x22message\x22:\x22x\x22\x7d],\x22score\x22:90,\x22passed\x22:true,\x22suggestions\x22:[\x22ok\x22]\x7d"
        "const x = 1" "a.ts") "passed" = some (Json.bool true)
    ∧ issuesNoBlocking (processReview
        "\x7b\x22issues\x22:[\x7b\x22type\x22:\x22error\x22,\x22severity\x22:\x22critical\x22,\x22file\x22:\x22a.ts\x22,\x22message\x22:\x22x\x22\x7d],\x22score\x22:90,\x22passed\x22:true,\x22suggestions\x22:[\x22ok\x22]\x7d"
        "const x = 1" "a.ts") = false := by
  constructor <;> rfl

theorem count_zero_iff_all (issues : List CodeIssueL) :
    (((issues.filter (fun i => i.severity == "critical")).length == 0)
      && ((issues.filter (fun i => i.severity == "high")).length == 0))
    = issues.all (fun i => !(i.severity == "critical" || i.severity == "high")) := by
  induction issues with
  | nil => rfl
  | cons i t ih =>
    by_cases hc : i.severity = "critical"
    · have hc2 : (i.severity == "critical") = true := by simp [hc]
      simp [List.filter_cons, List.all_cons, hc2]
    · have hc2 : (i.severity == "critical") = false := by simp [hc]
      by_cases hh : i.severity = "high"
      · have hh2 : (i.severity == "high") = true := by simp [hh]
        simp [List.filter_cons, List.all_cons, hc2, hh2]
      · have hh2 : (i.severity == "high") = false := by simp [hh]
        simp [List.filter_cons, List.all_cons, hc2, hh2, ih]

/-- C4 (amended): for the deterministic fallback checker `simpleCodeCheck`
— used whenever no model is configured or the LLM response is malformed —
`passed` is true exactly when no produced issue has severity critical or
high. (The LLM path trusts a well-formed response's `passed` field without
cross-validation; see the counterexample.) -/
theorem simpleCodeCheck_passed_iff_no_blocking (code filePath : String) :
    (simpleCodeCheck code filePath).passed
      = (simpleCodeCheck code filePath).issues.all
          (fun i => !(i.severity == "critical" || i.severity == "high")) :=
  count_zero_iff_all _

/-! ## QAAgent.fixCode (src/unnamed/part_011, lines 592-639) -/

/-- Lazy scan for the closing fence of `([\s\S]*?)\n?` + three backticks:
the shortest prefix after which the closing fence follows (a newline
directly before the fence is consumed by the optional `\n`, so it is not
part of the captured group either way). -/
def fenceScan : List Char → List Char → Option (List Char)
  | acc, l =>
    if startsL "\n```".data l || startsL "```".data l then some acc.reverse
    else
      match l with
      | [] => none
      | c :: cs => fenceScan (c :: acc) cs

/-- The first fixCode regex (three backticks, `typescript?`, optional
newline, lazy body, optional newline, three backticks) tried at every
start position left to right. The optional `t` and newline are taken
greedily; backtracking over them cannot change whether a closing fence
exists, since a fence cannot start with `t` or a newline. -/
def findFence1 : List Char → Option String
  | [] => none
  | l@(_ :: cs) =>
    if startsL "```typescrip".data l then
      let r0 := l.drop 12
      let r1 := match r0 with | 't' :: t => t | _ => r0
      let r2 := match r1 with | '\n' :: t => t | _ => r1
      match fenceScan [] r2 with
      | some content => some (String.mk content)
      | none => findFence1 cs
    else findFence1 cs

/-- The second fixCode regex (plain fenced block). -/
def findFence2 : List Char → Option String
  | [] => none
  | l@(_ :: cs) =>
    if startsL "```".data l then
      let r0 := l.drop 3
      let r1 := match r0 with | '\n' :: t => t | _ => r0
      match fenceScan [] r1 with
      | some content => some (String.mk content)
      | none => findFence2 cs
    else findFence2 cs

/-- `QAAgent.fixCode`, with the model call abstracted: `configAvailable`
is whether `selectModel('coding', 'high')` returned a config, and
`callResult` the outcome of `callModel` (exception or response content).
The second component instruments whether a model call was performed. -/
def fixCode (configAvailable : Bool) (callResult : Except String String)
    (code filePath : String) (issues : List CodeIssueL) : String × Bool :=
  if issues.isEmpty then (code, false)
  else if !configAvailable then (code, false)
  else
    match callResult with
    | .ok content =>
      (match findFence1 content.data with
       | some inner => inner.trim
       | none =>
         match findFence2 content.data with
         | some inner => inner.trim
         | none => content.trim, true)
    | .error _ => (code, true)

/-- C10: `fixCode` with an empty issues list returns the input code
unchanged without performing any model call, for every model
configuration, response and file path. -/
theorem fixCode_empty_issues_id (configAvailable : Bool) (callResult : Except String String)
    (code filePath : String) :
    fixCode configAvailable callResult code filePath [] = (code, false) := rfl

/-! ## ModelRouter.callModel (src/unnamed/part_003, lines 154-192)

The provider dispatch is external; the outcome of attempt `i` is an
oracle value `oracle i` (exception message or response). The embedding
returns the call result together with the list of backoff sleeps
(in milliseconds) that were performed. -/

structure ModelResponseL where
  content : String
  model : String
  provider : String
  tokensUsed : Option Nat
  deriving DecidableEq

/-- The message of an error outcome (`lastError?.message`). -/
def errMsgOf : Except String ModelResponseL → String
  | .error e => e
  | .ok _ => ""

/-- The retry loop of `callModel`: `fuel` counts the remaining attempts,
`attempt` is the current index, `lastErr` the last caught error. A sleep of
`2 ^ attempt * 1000` ms happens after a failed attempt unless it was the
last one. The final throw renders a `null` last error as "undefined". -/
def callModelAux (oracle : Nat → Except String ModelResponseL) :
    Nat → Nat → Option String → Except String ModelResponseL × List Nat
  | 0, _, lastErr =>
    (.error ("Alle Versuche fehlgeschlagen: " ++ lastErr.getD "undefined"), [])
  | fuel + 1, attempt, _ =>
    match oracle attempt with
    | .ok r => (.ok r, [])
    | .error e =>
      if fuel != 0 then
        let r2 := callModelAux oracle fuel (attempt + 1) (some e)
        (r2.1, (2 ^ attempt * 1000) :: r2.2)
      else
        callModelAux oracle fuel (attempt + 1) (some e)

/-- `ModelRouter.callModel` with `maxRetries` attempts. -/
def callModel (oracle : Nat → Except String ModelResponseL) (maxRetries : Nat) :
    Except String ModelResponseL × List Nat :=
  callModelAux oracle maxRetries 0 none

theorem backoffs_succ (start cnt : Nat) :
    (List.range (cnt + 1)).map (fun a => 2 ^ (start + a) * 1000)
      = 2 ^ start * 1000 :: (List.range cnt).map (fun a => 2 ^ (start + 1 + a) * 1000) := by
  rw [List.range_succ_eq_map]
  simp only [List.map_cons, List.map_map, Nat.add_zero]
  refine congrArg₂ _ rfl ?_
  refine List.map_congr_left ?_
  intro a _
  show 2 ^ (start + (a + 1)) * 1000 = 2 ^ (start + 1 + a) * 1000
  rw [show start + (a + 1) = start + 1 + a by omega]

theorem callModelAux_all_fail (oracle : Nat → Except String ModelResponseL) :
    ∀ (fuel attempt : Nat) (lastErr : Option String), 1 ≤ fuel →
    (∀ i, attempt ≤ i → i < attempt + fuel → (oracle i).isOk = false) →
    callModelAux oracle fuel attempt lastErr
      = (.error ("Alle Versuche fehlgeschlagen: " ++ errMsgOf (oracle (attempt + fuel - 1))),
         (List.range (fuel - 1)).map (fun a => 2 ^ (attempt + a) * 1000)) := by
  intro fuel
  induction fuel with
  | zero => intro attempt lastErr h; omega
  | succ f ih =>
    intro attempt lastErr _ hfail
    have hcur : (oracle attempt).isOk = false := hfail attempt (le_refl _) (by omega)
    obtain ⟨e, he⟩ : ∃ e, oracle attempt = .error e := by
      cases hoc : oracle attempt with
      | ok r => rw [hoc] at hcur; simp [Except.isOk, Except.toBool] at hcur
      | error e => exact ⟨e, rfl⟩
    by_cases hf : f = 0
    · subst hf
      simp [callModelAux, he, errMsgOf]
    · have hfb : (f != 0) = true := by simp [hf]
      have ih2 := ih (attempt + 1) (some e) (by omega)
        (fun i h1 h2 => hfail i (by omega) (by omega))
      simp only [callModelAux, he, hfb, if_true]
      rw [ih2]
      have hb := backoffs_succ attempt (f - 1)
      rw [show f - 1 + 1 = f by omega] at hb
      simp only [Nat.add_sub_cancel]
      rw [show attempt + 1 + f - 1 = attempt + f by omega] at *
      rw [show attempt + (f + 1) - 1 = attempt + f by omega]
      rw [hb]

theorem callModelAux_first_ok (oracle : Nat → Except String ModelResponseL) :
    ∀ (fuel attempt : Nat) (lastErr : Option String) (k : Nat) (r : ModelResponseL),
    attempt ≤ k → k < attempt + fuel →
    (∀ i, attempt ≤ i → i < k → (oracle i).isOk = false) →
    oracle k = .ok r →
    callModelAux oracle fuel attempt lastErr
      = (.ok r, (List.range (k - attempt)).map (fun a => 2 ^ (attempt + a) * 1000)) := by
  intro fuel
  induction fuel with
  | zero => intro attempt lastErr k r h1 h2 h3 h4; omega
  | succ f ih =>
    intro attempt lastErr k r hak hkf hfail hok
    by_cases hq : attempt = k
    · subst hq
      simp [callModelAux, hok]
    · have hcur : (oracle attempt).isOk = false := hfail attempt (le_refl _) (by omega)
      obtain ⟨e, he⟩ : ∃ e, oracle attempt = .error e := by
        cases hoc : oracle attempt with
        | ok rr => rw [hoc] at hcur; simp [Except.isOk, Except.toBool] at hcur
        | error e => exact ⟨e, rfl⟩
      have hf : f ≠ 0 := by omega
      have hfb : (f != 0) = true := by simp [hf]
      have ih2 := ih (attempt + 1) (some e) k r (by omega) (by omega)
        (fun i hi1 hi2 => hfail i (by omega) hi2) hok
      simp only [callModelAux, he, hfb, if_true]
      rw [ih2]
      have hb := backoffs_succ attempt (k - attempt - 1)
      rw [show k - attempt - 1 + 1 = k - attempt by omega] at hb
      rw [show k - (attempt + 1) = k - attempt - 1 by omega]
      rw [hb]

/-- C7: every exception is retried identically up to the bound, sleeping
`2 ^ attempt * 1000` ms after each failed attempt except the last
(exponential backoff, no sleep after the final attempt); after exhausting
all `maxRetries` attempts the call surfaces an aggregated error containing
the last error's message, and when attempt `k` is the first to succeed its
response is returned after exactly `k` backoff sleeps. -/
theorem callModel_retries_with_backoff (oracle : Nat → Except String ModelResponseL)
    (N : Nat) :
    ((1 ≤ N) → (∀ i, i < N → (oracle i).isOk = false) →
      callModel oracle N
        = (.error ("Alle Versuche fehlgeschlagen: " ++ errMsgOf (oracle (N - 1))),
           (List.range (N - 1)).map (fun a => 2 ^ a * 1000)))
    ∧ (∀ k, k < N → (∀ i, i < k → (oracle i).isOk = false) →
        ∀ r, oracle k = .ok r →
        callModel oracle N = (.ok r, (List.range k).map (fun a => 2 ^ a * 1000))) := by
  constructor
  · intro hN hfail
    unfold callModel
    rw [callModelAux_all_fail oracle N 0 none hN (fun i h1 h2 => hfail i (by omega))]
    simp [Nat.zero_add]
  · intro k hk hfail r hr
    unfold callModel
    rw [callModelAux_first_ok oracle N 0 none k r (by omega) (by omega)
          (fun i h1 h2 => hfail i h2) hr]
    simp [Nat.zero_add]

/-- Witness for `callModel_retries_with_backoff`: three failing attempts
sleep 1000 and 2000 ms and surface the last error; a success on attempt 2
(after two failures) returns the response after the same two sleeps. -/
theorem callModel_retries_with_backoff_witness :
    callModel (fun _ => .error "boom") 3
        = (.error "Alle Versuche fehlgeschlagen: boom", [1000, 2000])
    ∧ callModel (fun i => if i = 2 then .ok ⟨"hi", "m", "claude", none⟩ else .error "boom") 5
        = (.ok ⟨"hi", "m", "claude", none⟩, [1000, 2000]) := by
  constructor
  · have h := (callModel_retries_with_backoff (fun _ => .error "boom") 3).1
      (by omega) (fun i _ => rfl)
    rw [h]
    rfl
  · have h := (callModel_retries_with_backoff
        (fun i => if i = 2 then .ok ⟨"hi", "m", "claude", none⟩ else .error "boom") 5).2
      2 (by omega) (by decide) _ rfl
    rw [h]
    rfl

/-! ## Knowledge store search (src/src/lib/supabase/projects.ts, lines 233-285)

The Supabase store is external: its state is modelled as a list of
entries, the similarity path's outcome as an oracle value, and the
fallback query computes the documented query contract — case-insensitive
substring match over `content` for the project, ordered by `created_at`
descending, capped at `limit`; a query error object yields the empty
list. SQL `ilike` wildcards inside the query string are not modelled. -/

structure BrainEntryL where
  id : Nat
  project_id : String
  content : String
  entry_type : String
  created_at : Nat
  deriving DecidableEq

/-- ASCII lower-casing of one character (`toLowerCase`; non-ASCII case
mappings are not modelled). -/
def toLowerCh (c : Char) : Char :=
  if 'A' ≤ c ∧ c ≤ 'Z' then Char.ofNat (c.toNat + 32) else c

/-- Case-insensitive substring match (`ilike '%query%'`). -/
def containsCI (hay needle : String) : Bool :=
  hasSub (hay.data.map toLowerCh) (needle.data.map toLowerCh)

/-- Insert into a list that is sorted by `created_at` descending. -/
def insertDesc (e : BrainEntryL) : List BrainEntryL → List BrainEntryL
  | [] => [e]
  | x :: xs => if x.created_at ≤ e.created_at then e :: x :: xs else x :: insertDesc e xs

/-- Sort by `created_at` descending (`order('created_at', ascending: false)`). -/
def sortByRecency : List BrainEntryL → List BrainEntryL
  | [] => []
  | x :: xs => insertDesc x (sortByRecency xs)

/-- `searchBrainFallback`: the plain text-search query over the store. -/
def searchBrainFallback (db : List BrainEntryL) (tableError : Bool)
    (projectId query : String) (limit : Nat) : List BrainEntryL :=
  if tableError then []
  else (sortByRecency (db.filter
      (fun e => e.project_id == projectId && containsCI e.content query))).take limit

/-- Outcome of the embedding + similarity-RPC path. -/
inductive SimOutcome where
  | thrown : String → SimOutcome
  | rpcError : String → SimOutcome
  | ok : Option (List BrainEntryL) → SimOutcome
  deriving DecidableEq

/-- `searchBrain`: a thrown exception anywhere in the similarity path is
caught and routed to the fallback, as is an rpc error object; otherwise
the rpc rows (or `[]` for null data) are returned. -/
def searchBrain (db : List BrainEntryL) (sim : SimOutcome) (tableError : Bool)
    (projectId query : String) (limit : Nat) : List BrainEntryL :=
  match sim with
  | .thrown _ => searchBrainFallback db tableError projectId query limit
  | .rpcError _ => searchBrainFallback db tableError projectId query limit
  | .ok data => data.getD []

theorem perm_insertDesc (e : BrainEntryL) (l : List BrainEntryL) :
    List.Perm (insertDesc e l) (e :: l) := by
  induction l with
  | nil => rfl
  | cons x xs ih =>
    simp only [insertDesc]
    split
    · rfl
    · exact (ih.cons x).trans (List.Perm.swap e x xs)

theorem sorted_insertDesc {e : BrainEntryL} {l : List BrainEntryL}
    (h : l.Sorted (fun a b => b.created_at ≤ a.created_at)) :
    (insertDesc e l).Sorted (fun a b => b.created_at ≤ a.created_at) := by
  induction l with
  | nil => simp [insertDesc]
  | cons x xs ih =>
    rw [List.sorted_cons] at h
    simp only [insertDesc]
    split
    case isTrue hx =>
      rw [List.sorted_cons]
      refine ⟨?_, List.sorted_cons.mpr h⟩
      intro b hb
      rcases List.mem_cons.mp hb with hb | hb
      · subst hb; exact hx
      · exact le_trans (h.1 b hb) hx
    case isFalse hx =>
      rw [List.sorted_cons]
      refine ⟨?_, ih h.2⟩
      intro b hb
      have hmem : b ∈ e :: xs := (perm_insertDesc e xs).mem_iff.mp hb
      rcases List.mem_cons.mp hmem with hb2 | hb2
      · subst hb2; omega
      · exact h.1 b hb2

theorem perm_sortByRecency (l : List BrainEntryL) : List.Perm (sortByRecency l) l := by
  induction l with
  | nil => rfl
  | cons x xs ih => exact (perm_insertDesc x (sortByRecency xs)).trans (ih.cons x)

theorem sorted_sortByRecency (l : List BrainEntryL) :
    (sortByRecency l).Sorted (fun a b => b.created_at ≤ a.created_at) := by
  induction l with
  | nil => simp [sortByRecency]
  | cons x xs ih => exact sorted_insertDesc ih

/-- C8: when the similarity path fails (embedding exception, rpc exception
or rpc error object), `searchBrain` returns exactly the case-insensitive
substring text-search result — only entries of the project that contain
the query case-insensitively, ordered by descending creation time, capped
at `limit` — and never propagates an exception (the function is total; a
fallback query error becomes `[]`). -/
theorem searchBrain_fallback_equiv (db : List BrainEntryL) (sim : SimOutcome)
    (tableError : Bool) (projectId query : String) (limit : Nat)
    (h : ∀ d, sim ≠ .ok d) :
    searchBrain db sim tableError projectId query limit
      = searchBrainFallback db tableError projectId query limit
    ∧ (searchBrain db sim tableError projectId query limit).length ≤ limit
    ∧ (∀ e ∈ searchBrain db sim tableError projectId query limit,
        e.project_id = projectId ∧ containsCI e.content query = true ∧ e ∈ db)
    ∧ (searchBrain db sim tableError projectId query limit).Sorted
        (fun a b => b.created_at ≤ a.created_at) := by
  have heq : searchBrain db sim tableError projectId query limit
      = searchBrainFallback db tableError projectId query limit := by
    cases sim with
    | thrown m => rfl
    | rpcError m => rfl
    | ok d => exact absurd rfl (h d)
  refine ⟨heq, ?_, ?_, ?_⟩ <;> rw [heq] <;> unfold searchBrainFallback <;>
    rcases tableError with _ | _
  · simp only [if_neg Bool.false_ne_true]
    exact le_trans (List.length_take_le _ _) (le_refl _)
  · simp
  · simp only [if_neg Bool.false_ne_true]
    intro e he
    have h1 : e ∈ sortByRecency (db.filter
        (fun e => e.project_id == projectId && containsCI e.content query)) :=
      List.mem_of_mem_take he
    have h2 := (perm_sortByRecency _).mem_iff.mp h1
    have h3 := List.mem_filter.mp h2
    have h4 := h3.2
    simp only [Bool.and_eq_true, beq_iff_eq] at h4
    exact ⟨h4.1, h4.2, h3.1⟩
  · simp
  · simp only [if_neg Bool.false_ne_true]
    exact List.Pairwise.sublist (List.take_sublist _ _) (sorted_sortByRecency _)
  · simp [List.Sorted]

/-- Witness for `searchBrain_fallback_equiv`: a four-entry store where the
similarity path throws; the two matching entries of project "p" come back
newest first. -/
theorem searchBrain_fallback_equiv_witness :
    searchBrain
        [⟨1, "p", "Alpha Notes", "concept", 100⟩, ⟨2, "p", "beta ALPHA plan", "design", 200⟩,
         ⟨3, "q", "alpha other project", "concept", 300⟩, ⟨4, "p", "unrelated", "decision", 400⟩]
        (.thrown "embedding unavailable") false "p" "alpha" 2
      = [⟨2, "p", "beta ALPHA plan", "design", 200⟩, ⟨1, "p", "Alpha Notes", "concept", 100⟩]
    ∧ (searchBrain
        [⟨1, "p", "Alpha Notes", "concept", 100⟩, ⟨2, "p", "beta ALPHA plan", "design", 200⟩,
         ⟨3, "q", "alpha other project", "concept", 300⟩, ⟨4, "p", "unrelated", "decision", 400⟩]
        (.thrown "embedding unavailable") false "p" "alpha" 2).length ≤ 2 := by
  have h := searchBrain_fallback_equiv
    [⟨1, "p", "Alpha Notes", "concept", 100⟩, ⟨2, "p", "beta ALPHA plan", "design", 200⟩,
     ⟨3, "q", "alpha other project", "concept", 300⟩, ⟨4, "p", "unrelated", "decision", 400⟩]
    (.thrown "embedding unavailable") false "p" "alpha" 2 (fun d hd => nomatch hd)
  refine ⟨?_, h.2.1⟩
  rw [h.1]
  rfl

/-! ## CI/CD build system (src/unnamed/part_005)

`projectFiles` maps are insertion-ordered association lists with unique
keys, as JavaScript objects with non-numeric keys are. Model calls
(`analyzeCodeWithAI` inside `runBuild`, `qaAgent.fixCode` inside
`autoFixBuild`) are oracle parameters; the bounded-concurrency fan-out of
the AI phase preserves the file order for the error/warning lists
(`Promise.all`), and the ordering of the `optimizations` pushes — which in
the source depends on promise completion order — is modelled as file
order. -/

/-- JavaScript `ToInt32`: reduce an integer to the signed 32-bit range. -/
def toInt32 (n : Int) : Int := (n + 2 ^ 31) % 2 ^ 32 - 2 ^ 31

/-- One step of the rolling hash `hash = ((hash << 5) - hash) + char`
followed by `hash = hash & hash`: modulo 2^32 this is `31 * hash + code`. -/
def hashStep (h : Int) (c : Char) : Int := toInt32 (31 * h + c.toNat)

/-- The 32-bit rolling hash over the characters (`charCodeAt` equals the
code point for the BMP characters used here). -/
def jsHash (content : List Char) : Int := content.foldl hashStep 0

/-- Base-36 digit. -/
def digit36 (n : Nat) : Char := if n < 10 then Char.ofNat (48 + n) else Char.ofNat (87 + n)

/-- Base-36 digits of a natural number (fuel-based). -/
def nat36Aux : Nat → Nat → List Char
  | 0, _ => []
  | fuel + 1, n =>
    if n < 36 then [digit36 n]
    else nat36Aux fuel (n / 36) ++ [digit36 (n % 36)]

/-- `Number.prototype.toString(36)` for integers. -/
def int36 (n : Int) : String :=
  if n < 0 then String.mk ('-' :: nat36Aux (n.natAbs + 1) n.natAbs)
  else String.mk (nat36Aux (n.natAbs + 1) n.natAbs)

/-- `PerformanceOptimizer.hashContent`. -/
def hashContent (content : String) : String := int36 (jsHash content.data)

/-- Lexicographic strict comparison of character lists by code point
(JavaScript's default sort comparison; the UTF-16 surrogate-order
difference for non-BMP characters is not modelled). -/
def ltCharList : List Char → List Char → Bool
  | [], [] => false
  | [], _ :: _ => true
  | _ :: _, [] => false
  | a :: as, b :: bs =>
    if a.toNat < b.toNat then true
    else if b.toNat < a.toNat then false
    else ltCharList as bs

/-- `s <= t` in the sort order. -/
def strLeJS (s t : String) : Bool := !ltCharList t.data s.data

/-- Insertion step of `Array.prototype.sort()` on strings. -/
def insertStr (s : String) : List String → List String
  | [] => [s]
  | x :: xs => if strLeJS s x then s :: x :: xs else x :: insertStr s xs

/-- `Object.keys(files).sort()`. -/
def sortStrs : List String → List String
  | [] => []
  | x :: xs => insertStr x (sortStrs xs)

/-- Join with a separator (`Array.prototype.join`). -/
def joinSep (sep : String) : List String → String
  | [] => ""
  | [x] => x
  | x :: xs => x ++ sep ++ joinSep sep xs

/-- `PerformanceOptimizer.hashProjectFiles`: hash of the sorted
`path:contentHash` pairs joined with `|`. -/
def hashProjectFiles (projectFiles : List (String × String)) : String :=
  let sortedPaths := sortStrs (projectFiles.map Prod.fst)
  let combined := joinSep "|" (sortedPaths.map (fun p =>
    p ++ ":" ++ hashContent ((projectFiles.lookup p).getD "")))
  hashContent combined

structure BuildMetricsL where
  totalFiles : Nat
  totalLines : Nat
  complexity : Int
  securityIssues : Nat
  codeQuality : String
  deriving DecidableEq

structure BuildResultL where
  success : Bool
  errors : List String
  warnings : List String
  fixed : Bool
  buildLog : String
  fixedFiles : Option (List (String × String))
  metrics : Option BuildMetricsL
  optimizations : Option (List String)
  deriving DecidableEq

/-- Render a natural number (decimal) as in template literals. -/
def natStr (n : Nat) : String := String.mk (natDec n)

/-- Render an integer. -/
def intStr (n : Int) : String := String.mk (intDec n)

/-- Count occurrences of a character (`match(/c/g)`). -/
def countCh (c : Char) (l : List Char) : Nat := (l.filter (fun x => x == c)).length

/-- Word character for the `\b` boundary. -/
def isWordChar (c : Char) : Bool :=
  ('a' ≤ c && c ≤ 'z') || ('A' ≤ c && c ≤ 'Z') || ('0' ≤ c && c ≤ '9') || c == '_'

/-- Count the matches of `/\bany\b/g`: occurrences of "any" with no word
character on either side; the scan continues after each match. -/
def countWordAny : Option Char → List Char → Nat
  | prev, 'a' :: 'n' :: 'y' :: rest =>
    if (match prev with | none => true | some p => !isWordChar p)
        && (match rest with | [] => true | c :: _ => !isWordChar c) then
      1 + countWordAny (some 'y') rest
    else countWordAny (some 'a') ('n' :: 'y' :: rest)
  | prev, c :: cs =>
    let _ := prev
    countWordAny (some c) cs
  | _, [] => 0

/-- Ordered-alternation counter for a global regex like
`/(function|const|=>)/g`: at each position the first matching alternative
wins and the scan continues after it. -/
def countAltGo (alts : List (List Char)) : Nat → List Char → Nat
  | 0, _ => 0
  | _, [] => 0
  | fuel + 1, l =>
    match alts.find? (fun a => startsL a l) with
    | some a => 1 + countAltGo alts fuel (l.drop (max a.length 1))
    | none =>
      match l with
      | [] => 0
      | _ :: cs => countAltGo alts fuel cs

/-- Count the global matches of an ordered alternation in a string. -/
def countAlt (alts : List String) (content : String) : Nat :=
  countAltGo (alts.map String.data) content.data.length content.data

/-- Whitespace for `String.prototype.trim` (ASCII subset). -/
def isTrimWs (c : Char) : Bool :=
  c == ' ' || c == '\t' || c == '\n' || c == '\r' || c == '\x0b' || c == '\x0c'

/-- `content.trim().length === 0`. -/
def trimEmpty (content : String) : Bool := content.data.all isTrimWs

/-- Does the path name a TypeScript/JavaScript source file? -/
def isCodeFile (path : String) : Bool :=
  sEndsWith path ".ts" || sEndsWith path ".tsx" || sEndsWith path ".js" || sEndsWith path ".jsx"

/-- Phase-1 static errors for one file (missing react-hook imports, brace
imbalance, paren imbalance), in source order. -/
def staticFileErrors (path content : String) : List String :=
  if isCodeFile path then
    (["useState", "useEffect", "useRef", "useCallback", "useMemo", "useContext"].filterMap
      (fun hook =>
        if sContains content hook && !sContains content "from \x27react\x27"
            && !sContains content "from \"react\"" then
          some (path ++ ": " ++ hook ++ " wird verwendet aber nicht importiert")
        else none))
    ++ (if countCh '{' content.data != countCh '}' content.data then
          [path ++ ": Ungleiche Anzahl von geschweiften Klammern ("
            ++ natStr (countCh '{' content.data) ++ " öffnend, "
            ++ natStr (countCh '}' content.data) ++ " schließend)"]
        else [])
    ++ (if countCh '(' content.data != countCh ')' content.data then
          [path ++ ": Ungleiche Anzahl von Klammern"]
        else [])
  else []

/-- Phase-1 static warnings for one file, in source order (the
`export default` warning is unreachable, as in the source). -/
def staticFileWarnings (path content : String) : List String :=
  (if isCodeFile path then
    (["Send", "Loader2", "Settings", "Key", "CreditCard", "X", "Check"].filterMap
      (fun icon =>
        if sContains content ("<" ++ icon) && !sContains content "from \x27lucide-react\x27"
            && !sContains content "from \"lucide-react\"" then
          some (path ++ ": " ++ icon ++ " Icon verwendet aber möglicherweise nicht importiert")
        else none))
    ++ (if sContains content "export default function" && !sContains content "export default" then
          [path ++ ": Möglicherweise fehlende default export"]
        else [])
    ++ (if sEndsWith path ".ts" || sEndsWith path ".tsx" then
          let n := countWordAny none content.data
          if 5 < n then
            [path ++ ": Viele \x27any\x27 Typen gefunden (" ++ natStr n
              ++ ") - sollte spezifische Typen verwenden"]
          else []
        else [])
    ++ (if sContains content "useEffect" && !sContains content "useEffect(() =>" then
          [path ++ ": useEffect sollte mit Dependency-Array verwendet werden"]
        else [])
    ++ (if sContains content "dangerouslySetInnerHTML" || sContains content "innerHTML" then
          [path ++ ": Potenzielle XSS-Gefahr durch innerHTML"]
        else [])
  else [])
  ++ (if trimEmpty content then [path ++ ": Leere Datei"] else [])

/-- `calculateMetrics`: token-count heuristic complexity, security
substring checks, and the average-complexity quality bucket. For an empty
file map JavaScript computes `NaN` (printed only in the log); the model
uses 0 there, and no claim depends on it. `Math.round` on the non-negative
average is `floor(x + 1/2)`. -/
def calculateMetrics (projectFiles : List (String × String)) : BuildMetricsL :=
  let totalLines := (projectFiles.map (fun pc => countCh '\n' pc.2.data + 1)).sum
  let complexity := (projectFiles.map (fun pc =>
    countAlt ["function", "const", "=>"] pc.2
      + 2 * countAlt ["if", "else", "switch", "case"] pc.2
      + 2 * countAlt ["for", "while", "forEach", "map"] pc.2)).sum
  let securityIssues := (projectFiles.filter (fun pc =>
    sContains pc.2 "eval(" || sContains pc.2 "innerHTML"
      || sContains pc.2 "dangerouslySetInnerHTML")).length
  let n := projectFiles.length
  let codeQuality :=
    if 50 * n < complexity then "poor"
    else if 30 * n < complexity then "fair"
    else if 15 * n < complexity then "good"
    else "excellent"
  { totalFiles := n
    totalLines := totalLines
    complexity := if n == 0 then 0 else Int.ofNat ((2 * complexity + n) / (2 * n))
    securityIssues := securityIssues
    codeQuality := codeQuality }

/-- Result of `analyzeCodeWithAI` for one file (the model call is the
oracle; a missing model config or a failed/unparseable response is the
all-empty outcome, as in the source). -/
structure AiOut where
  errors : List String
  warnings : List String
  suggestions : List String
  deriving DecidableEq

/-- The "critical" files of the AI phase, capped at 5. -/
def criticalFiles (projectFiles : List (String × String)) : List (String × String) :=
  (projectFiles.filter (fun pc =>
    sContains pc.1 "App" || sContains pc.1 "index" || sContains pc.1 "main"
      || sContains pc.1 "component")).take 5

/-- `runBuild`: phase 1 static analysis, phase 2 AI analysis over the
critical files, phase 3 metrics; success iff the error list is empty. -/
def runBuild (ai : String → String → AiOut) (projectFiles : List (String × String)) :
    BuildResultL :=
  let errors1 := (projectFiles.map (fun pc => staticFileErrors pc.1 pc.2)).flatten
  let warnings1 := (projectFiles.map (fun pc => staticFileWarnings pc.1 pc.2)).flatten
  let crit := criticalFiles projectFiles
  let errors := errors1 ++ (crit.map (fun pc =>
    (ai pc.1 pc.2).errors.map (fun e => pc.1 ++ ": " ++ e))).flatten
  let warnings := warnings1 ++ (crit.map (fun pc =>
    (ai pc.1 pc.2).warnings.map (fun w => pc.1 ++ ": " ++ w))).flatten
  let optimizations := crit.filterMap (fun pc =>
    if 0 < (ai pc.1 pc.2).suggestions.length then
      some (pc.1 ++ ": " ++ natStr (ai pc.1 pc.2).suggestions.length
        ++ " Optimierungsvorschläge gefunden")
    else none)
  let metrics := calculateMetrics projectFiles
  let buildLog :=
    "🚀 Starte KI-optimierte Build-Analyse...\n"
    ++ "📁 Analysiere " ++ natStr projectFiles.length ++ " Dateien\n\n"
    ++ "📊 Phase 1: Statische Code-Analyse\n"
    ++ "✓ Statische Analyse abgeschlossen: " ++ natStr errors1.length ++ " Fehler, "
    ++ natStr warnings1.length ++ " Warnungen\n\n"
    ++ "🤖 Phase 2: KI-gestützte Code-Analyse (parallelisiert)\n"
    ++ "✓ KI-Analyse abgeschlossen (" ++ natStr crit.length ++ " Dateien parallel analysiert)\n\n"
    ++ "📈 Phase 3: Code-Qualitäts-Metriken\n"
    ++ "- Dateien: " ++ natStr metrics.totalFiles ++ "\n"
    ++ "- Zeilen: " ++ natStr metrics.totalLines ++ "\n"
    ++ "- Komplexität: " ++ intStr metrics.complexity ++ "\n"
    ++ "- Qualität: " ++ metrics.codeQuality ++ "\n"
    ++ "- Sicherheitsprobleme: " ++ natStr metrics.securityIssues ++ "\n\n"
    ++ "📋 Zusammenfassung: " ++ natStr errors.length ++ " Fehler, "
    ++ natStr warnings.length ++ " Warnungen, " ++ natStr optimizations.length
    ++ " Optimierungsmöglichkeiten\n"
  if errors.isEmpty then
    { success := true, errors := [], warnings := warnings, fixed := false
      buildLog := buildLog ++ "✅ Build-Analyse erfolgreich!\n"
      fixedFiles := none, metrics := some metrics
      optimizations := if 0 < optimizations.length then some optimizations else none }
  else
    { success := false, errors := errors, warnings := warnings, fixed := false
      buildLog := buildLog ++ "❌ Build fehlgeschlagen mit " ++ natStr errors.length
        ++ " Fehler(n)\n"
      fixedFiles := none, metrics := some metrics, optimizations := none }

/-! ## autoFixBuild (src/unnamed/part_005, lines 500-557) -/

/-- JavaScript line terminators. -/
def lineTerm (c : Char) : Bool := c == '\n' || c == '\r' || c == '\u2028' || c == '\u2029'

/-- `\s` whitespace (common subset). -/
def jsWsB (c : Char) : Bool :=
  c == ' ' || c == '\t' || c == '\n' || c == '\r' || c == '\x0b' || c == '\x0c'
    || c == '\u00a0' || c == '\ufeff'

/-- Split at the first colon with a non-empty prefix (`^([^:]+):`). -/
def splitColonAux : List Char → List Char → Option (List Char × List Char)
  | _, [] => none
  | acc, ':' :: rest => if acc.isEmpty then none else some (acc.reverse, rest)
  | acc, c :: rest => splitColonAux (c :: acc) rest

/-- The error-grouping regex `/^([^:]+):\s*(.+)$/`: file up to the first
colon, then greedily skipped whitespace, then a non-empty message that may
not contain a line terminator (`.` excludes them and `$` anchors the end;
when everything after the colon is whitespace the regex backtracks to
leave exactly the last character as the message). -/
def parseErrLine (e : String) : Option (String × String) :=
  match splitColonAux [] e.data with
  | none => none
  | some (file, rest) =>
    let m := rest.dropWhile jsWsB
    if m.isEmpty then
      match rest.getLast? with
      | some c => if jsWsB c && !lineTerm c then some (String.mk file, String.mk [c]) else none
      | none => none
    else if m.any lineTerm then none
    else some (String.mk file, String.mk m)

/-- Append a message to the group of a file, preserving first-seen key
order (`errorsByFile[file].push(message)`). -/
def groupInsert : List (String × List String) → String → String → List (String × List String)
  | [], file, msg => [(file, [msg])]
  | (f, ms) :: rest, file, msg =>
    if f == file then (f, ms ++ [msg]) :: rest else (f, ms) :: groupInsert rest file msg

/-- Group the build errors by the file named before the first colon. -/
def errorsByFile (errors : List String) : List (String × List String) :=
  errors.foldl (fun g e =>
    match parseErrLine e with
    | some fm => groupInsert g fm.1 fm.2
    | none => g) []

/-- Replace the content of the (first) entry with the given path. -/
def updateFile : List (String × String) → String → String → List (String × String)
  | [], _, _ => []
  | (p, c) :: rest, path, newC =>
    if p == path then (p, newC) :: rest else (p, c) :: updateFile rest path newC

structure FixResultL where
  fixed : Bool
  fixedFiles : List (String × String)
  remainingErrors : List String
  optimizations : List String
  deriving DecidableEq

/-- The per-file loop of `autoFixBuild`: a file that is absent from the
map or has falsy (empty) content contributes its errors to
`remainingErrors`; otherwise the fixer (the QA agent, an oracle here)
rewrites the file. -/
def autoFixGo (fixer : String → String → List CodeIssueL → String) :
    List (String × List String) → List (String × String) → List String → List String
      → List (String × String) × List String × List String
  | [], files, rem, opts => (files, rem, opts)
  | (filePath, fileErrors) :: rest, files, rem, opts =>
    match files.lookup filePath with
    | none =>
      autoFixGo fixer rest files (rem ++ fileErrors.map (fun e => filePath ++ ": " ++ e)) opts
    | some content =>
      if content == "" then
        autoFixGo fixer rest files (rem ++ fileErrors.map (fun e => filePath ++ ": " ++ e)) opts
      else
        let issues := fileErrors.map (fun e =>
          ({ type := "error", severity := "high", file := filePath, line := none
             message := e
             suggestion := some "Repariere den Fehler automatisch mit KI" } : CodeIssueL))
        autoFixGo fixer rest (updateFile files filePath (fixer content filePath issues)) rem
          (opts ++ [filePath ++ ": " ++ natStr fileErrors.length ++ " Fehler automatisch behoben"])

/-- `autoFixBuild`. -/
def autoFixBuild (fixer : String → String → List CodeIssueL → String)
    (projectFiles : List (String × String)) (buildErrors : List String) : FixResultL :=
  let r := autoFixGo fixer (errorsByFile buildErrors) projectFiles [] []
  { fixed := r.2.1.isEmpty, fixedFiles := r.1, remainingErrors := r.2.1, optimizations := r.2.2 }

/-! ## runCICDPipeline (src/unnamed/part_005, lines 562-620) -/

/-- The retry loop of `runCICDPipeline`: `fuel` is the number of remaining
loop iterations (`maxRetries - attemptsDone`); the second result component
counts the analyze (runBuild) cycles performed. -/
def runCICDAux (ai : String → String → AiOut) (fixer : String → String → List CodeIssueL → String)
    (maxRetries : Nat) :
    Nat → Nat → List (String × String) → List String → BuildResultL × Nat
  | 0, _, currentFiles, allOpts =>
    ({ success := false, errors := [], warnings := [], fixed := false
       buildLog := "❌ Build fehlgeschlagen nach " ++ natStr maxRetries ++ " Versuchen."
       fixedFiles := some currentFiles, metrics := none
       optimizations := if 0 < allOpts.length then some allOpts else none }, 0)
  | fuel + 1, attemptsDone, currentFiles, allOpts =>
    let attempt := attemptsDone + 1
    let b := runBuild ai currentFiles
    if b.success then
      ({ b with
          fixed := decide (1 < attempt)
          buildLog := "🎉 Build erfolgreich nach " ++ natStr attempt ++ " Versuch(en)!\n\n"
            ++ b.buildLog
          fixedFiles := if 1 < attempt then some currentFiles else none
          optimizations := if 0 < allOpts.length then some allOpts else b.optimizations }, 1)
    else if 0 < fuel then
      let fx := autoFixBuild fixer currentFiles b.errors
      let allOpts2 := allOpts ++ fx.optimizations
      if fx.fixed then
        let r := runCICDAux ai fixer maxRetries fuel attempt fx.fixedFiles allOpts2
        (r.1, r.2 + 1)
      else
        ({ success := false, errors := fx.remainingErrors, warnings := b.warnings, fixed := false
           buildLog := "❌ Build fehlgeschlagen nach " ++ natStr attempt ++ " Versuchen. "
             ++ natStr fx.remainingErrors.length
             ++ " Fehler konnten nicht behoben werden.\n\n" ++ b.buildLog
           fixedFiles := some fx.fixedFiles, metrics := b.metrics
           optimizations := if 0 < allOpts2.length then some allOpts2 else none }, 1)
    else
      ({ success := false, errors := [], warnings := [], fixed := false
         buildLog := "❌ Build fehlgeschlagen nach " ++ natStr maxRetries ++ " Versuchen."
         fixedFiles := some currentFiles, metrics := none
         optimizations := if 0 < allOpts.length then some allOpts else none }, 1)

/-- `runCICDPipeline(projectFiles, maxRetries)`. -/
def runCICDPipeline (ai : String → String → AiOut)
    (fixer : String → String → List CodeIssueL → String)
    (projectFiles : List (String × String)) (maxRetries : Nat) : BuildResultL :=
  (runCICDAux ai fixer maxRetries maxRetries 0 projectFiles []).1

/-! ## PerformanceOptimizer result cache (src/unnamed/part_005, lines 8-82)

The cache is an insertion-ordered map from project hash to entry. Note
that `runCICDPipeline` never calls `getCachedResult` or `cacheResult`
(the optimizer instance is used only for `analyzeFilesInParallel`), which
the session model below makes explicit. -/

structure CacheEntryL where
  fileHash : String
  result : BuildResultL
  timestamp : Nat
  deriving DecidableEq

/-- `Map.set`: update in place when present, append otherwise. -/
def mapSet : List (String × CacheEntryL) → String → CacheEntryL → List (String × CacheEntryL)
  | [], k, v => [(k, v)]
  | (k0, v0) :: rest, k, v =>
    if k0 == k then (k0, v) :: rest else (k0, v0) :: mapSet rest k v

/-- `Map.delete` of the (first) entry with the key. -/
def mapDelete : List (String × CacheEntryL) → String → List (String × CacheEntryL)
  | [], _ => []
  | (k0, v0) :: rest, k => if k0 == k then rest else (k0, v0) :: mapDelete rest k

/-- `getCachedResult`: a hit inside the 5-minute TTL returns the stored
result; an expired entry is deleted. Returns the result and the updated
cache state (`now` is `Date.now()`). -/
def getCachedResult (cache : List (String × CacheEntryL))
    (projectFiles : List (String × String)) (now : Nat) :
    Option BuildResultL × List (String × CacheEntryL) :=
  let hash := hashProjectFiles projectFiles
  match cache.lookup hash with
  | some cached =>
    if now - cached.timestamp < 5 * 60 * 1000 then (some cached.result, cache)
    else (none, mapDelete cache hash)
  | none => (none, cache)

/-- `cacheResult`: store under the project hash, evicting the oldest entry
when the size exceeds 50. -/
def cacheResult (cache : List (String × CacheEntryL))
    (projectFiles : List (String × String)) (result : BuildResultL) (now : Nat) :
    List (String × CacheEntryL) :=
  let hash := hashProjectFiles projectFiles
  let c2 := mapSet cache hash ⟨hash, result, now⟩
  if 50 < c2.length then c2.tail else c2

/-- A pipeline call observed together with the optimizer cache state:
`runCICDPipeline` contains no call to `getCachedResult`/`cacheResult`, so
the state passes through untouched and the analyze cycles are re-run. -/
def runCICDPipelineSession (st : List (String × CacheEntryL)) (ai : String → String → AiOut)
    (fixer : String → String → List CodeIssueL → String)
    (projectFiles : List (String × String)) (maxRetries : Nat) :
    BuildResultL × List (String × CacheEntryL) × Nat :=
  let r := runCICDAux ai fixer maxRetries maxRetries 0 projectFiles []
  (r.1, st, r.2)

/-! ## Claim C3: build loop cycle bounds -/

theorem runBuild_success_errors (ai : String → String → AiOut)
    (files : List (String × String)) :
    (runBuild ai files).success = true → (runBuild ai files).errors = [] := by
  unfold runBuild
  dsimp only
  split
  · intro _
    rfl
  · intro h
    simp at h

theorem runCICDAux_cycles_le (ai : String → String → AiOut)
    (fixer : String → String → List CodeIssueL → String) (M : Nat) :
    ∀ (fuel attempt : Nat) (files : List (String × String)) (opts : List String),
    (runCICDAux ai fixer M fuel attempt files opts).2 ≤ fuel := by
  intro fuel
  induction fuel with
  | zero => intro attempt files opts; simp [runCICDAux]
  | succ f ih =>
    intro attempt files opts
    simp only [runCICDAux]
    split
    · simp
    · split
      · split
        · have := ih (attempt + 1) (autoFixBuild fixer files (runBuild ai files).errors).fixedFiles
            (opts ++ (autoFixBuild fixer files (runBuild ai files).errors).optimizations)
          simp
          omega
        · simp
      · simp

theorem runCICDAux_success_shape (ai : String → String → AiOut)
    (fixer : String → String → List CodeIssueL → String) (M : Nat) :
    ∀ (fuel attempt : Nat) (files : List (String × String)) (opts : List String),
    (runCICDAux ai fixer M fuel attempt files opts).1.success = true →
    (runCICDAux ai fixer M fuel attempt files opts).1.errors = []
      ∧ 1 ≤ (runCICDAux ai fixer M fuel attempt files opts).2 := by
  intro fuel
  induction fuel with
  | zero => intro attempt files opts h; simp [runCICDAux] at h
  | succ f ih =>
    intro attempt files opts
    simp only [runCICDAux]
    split
    case isTrue hb =>
      intro _
      dsimp only
      refine ⟨by simpa using runBuild_success_errors ai files hb, by omega⟩
    case isFalse hb =>
      split
      · split
        · intro h
          dsimp only at h ⊢
          have h3 := ih (attempt + 1)
            (autoFixBuild fixer files (runBuild ai files).errors).fixedFiles
            (opts ++ (autoFixBuild fixer files (runBuild ai files).errors).optimizations) h
          exact ⟨h3.1, by omega⟩
        · intro h
          simp at h
      · intro h
        simp at h

theorem runCICDAux_first_cycle_success (ai : String → String → AiOut)
    (fixer : String → String → List CodeIssueL → String) (M : Nat)
    (fuel attempt : Nat) (files : List (String × String)) (opts : List String)
    (hb : (runBuild ai files).success = true) (hf : 1 ≤ fuel) :
    (runCICDAux ai fixer M fuel attempt files opts).1.success = true
    ∧ (runCICDAux ai fixer M fuel attempt files opts).2 = 1 := by
  obtain ⟨f, rfl⟩ : ∃ f, fuel = f + 1 := ⟨fuel - 1, by omega⟩
  constructor <;> simp [runCICDAux, hb]

/-- C3 (amended): for every file map, every `maxRetries = N` and every
model oracle, the pipeline performs at most `N` analyze/fix cycles; it
succeeds exactly when a cycle finds zero errors (in particular, if the
first build has zero errors it returns success after exactly one cycle,
and a success result always carries an empty error list after at least one
cycle); a failure is returned either after the Nth cycle or earlier, when
auto-fix leaves remaining errors (see the counterexample). The optimizer
cache state `st` passes through untouched. -/
theorem runCICDPipeline_cycle_bounds (st : List (String × CacheEntryL))
    (ai : String → String → AiOut) (fixer : String → String → List CodeIssueL → String)
    (files : List (String × String)) (N : Nat) :
    (runCICDPipelineSession st ai fixer files N).2.2 ≤ N
    ∧ ((runCICDPipeline ai fixer files N).success = true →
        (runCICDPipeline ai fixer files N).errors = []
          ∧ 1 ≤ (runCICDPipelineSession st ai fixer files N).2.2)
    ∧ (1 ≤ N → (runBuild ai files).success = true →
        (runCICDPipeline ai fixer files N).success = true
          ∧ (runCICDPipelineSession st ai fixer files N).2.2 = 1) := by
  refine ⟨runCICDAux_cycles_le ai fixer N N 0 files [], ?_, ?_⟩
  · intro h
    exact runCICDAux_success_shape ai fixer N N 0 files [] h
  · intro hN hb
    exact runCICDAux_first_cycle_success ai fixer N N 0 files [] hb hN

/-- C3 counterexample: with `maxRetries = 2` and the single file
`"x:y.ts" ↦ "useState"`, the first build produces the error
`"x:y.ts: useState wird verwendet aber nicht importiert"`; auto-fix groups
it under the file `"x"` (the text before the first colon), which does not
exist in the map, so the error remains and the pipeline returns failure
after 1 cycle — not after the Nth (2nd) cycle as the claim states. -/
theorem runCICDPipeline_early_failure_cex :
    (runCICDPipelineSession [] (fun _ _ => ⟨[], [], []⟩) (fun c _ _ => c)
        [("x:y.ts", "useState")] 2).2.2 = 1
    ∧ (runCICDPipeline (fun _ _ => ⟨[], [], []⟩) (fun c _ _ => c)
        [("x:y.ts", "useState")] 2).success = false
    ∧ (1 : Nat) ≠ 2 :=
  ⟨rfl, rfl, by decide⟩

/-- Witness for `runCICDPipeline_cycle_bounds`: a single non-code file
builds cleanly, so the pipeline succeeds after exactly one of its three
allowed cycles. -/
theorem runCICDPipeline_cycle_bounds_witness :
    (runCICDPipeline (fun _ _ => ⟨[], [], []⟩) (fun c _ _ => c) [("a.txt", "hello")] 3).success
        = true
    ∧ (runCICDPipelineSession [] (fun _ _ => ⟨[], [], []⟩) (fun c _ _ => c)
        [("a.txt", "hello")] 3).2.2 = 1 :=
  (runCICDPipeline_cycle_bounds [] (fun _ _ => ⟨[], [], []⟩) (fun c _ _ => c)
    [("a.txt", "hello")] 3).2.2 (by omega) (by rfl)

/-! ## Claim C9: autoFixBuild frame property -/

theorem updateFile_keys (files : List (String × String)) (path newC : String) :
    (updateFile files path newC).map Prod.fst = files.map Prod.fst := by
  induction files with
  | nil => rfl
  | cons pc rest ih =>
    obtain ⟨p, c⟩ := pc
    simp only [updateFile]
    split
    · simp
    · simp [ih]

theorem updateFile_lookup_ne (files : List (String × String)) (path newC q : String)
    (h : q ≠ path) : (updateFile files path newC).lookup q = files.lookup q := by
  induction files with
  | nil => rfl
  | cons pc rest ih =>
    obtain ⟨p, c⟩ := pc
    simp only [updateFile]
    split
    case isTrue hp =>
      have hp2 : p = path := by simpa using hp
      subst hp2
      have hq : (q == p) = false := by simpa using h
      simp [List.lookup, hq]
    case isFalse hp =>
      simp only [List.lookup]
      split
      · rfl
      · exact ih

theorem autoFixGo_keys (fixer : String → String → List CodeIssueL → String) :
    ∀ (groups : List (String × List String)) (files : List (String × String))
      (rem opts : List String),
    ((autoFixGo fixer groups files rem opts).1).map Prod.fst = files.map Prod.fst := by
  intro groups
  induction groups with
  | nil => intro files rem opts; rfl
  | cons g rest ih =>
    intro files rem opts
    obtain ⟨filePath, fileErrors⟩ := g
    simp only [autoFixGo]
    split
    · exact ih _ _ _
    case h_2 content hc =>
      split
      · exact ih _ _ _
      · rw [ih _ _ _, updateFile_keys]

theorem autoFixGo_lookup (fixer : String → String → List CodeIssueL → String) :
    ∀ (groups : List (String × List String)) (files : List (String × String))
      (rem opts : List String) (p : String),
    p ∉ groups.map Prod.fst →
    ((autoFixGo fixer groups files rem opts).1).lookup p = files.lookup p := by
  intro groups
  induction groups with
  | nil => intro files rem opts p _; rfl
  | cons g rest ih =>
    intro files rem opts p hp
    obtain ⟨filePath, fileErrors⟩ := g
    have hne : p ≠ filePath := by
      intro hcontra
      exact hp (by simp [hcontra])
    have hrest : p ∉ rest.map Prod.fst := by
      intro hcontra
      exact hp (by simp [hcontra])
    simp only [autoFixGo]
    split
    · exact ih _ _ _ p hrest
    case h_2 content hc =>
      split
      · exact ih _ _ _ p hrest
      · rw [ih _ _ _ p hrest, updateFile_lookup_ne _ _ _ _ hne]

theorem groupInsert_keys (g : List (String × List String)) (f0 m0 : String) :
    ∀ f ∈ (groupInsert g f0 m0).map Prod.fst, f = f0 ∨ f ∈ g.map Prod.fst := by
  induction g with
  | nil => intro f hf; simp [groupInsert] at hf; exact Or.inl hf
  | cons e rest ih =>
    obtain ⟨f1, ms⟩ := e
    intro f hf
    simp only [groupInsert] at hf
    split at hf
    · simp at hf
      rcases hf with hf | hf
      · exact Or.inr (by simp [hf])
      · exact Or.inr (by simp [hf])
    · simp at hf
      rcases hf with hf | hf
      · exact Or.inr (by simp [hf])
      · rcases ih f (by simpa using hf) with hf2 | hf2
        · exact Or.inl hf2
        · exact Or.inr (by simp [hf2])

theorem errorsByFile_keys_from (errors : List String) :
    ∀ f ∈ (errorsByFile errors).map Prod.fst,
      ∃ e ∈ errors, ∃ m, parseErrLine e = some (f, m) := by
  have main : ∀ (es : List String) (g : List (String × List String)),
      ∀ f ∈ ((es.foldl (fun g e =>
          match parseErrLine e with
          | some fm => groupInsert g fm.1 fm.2
          | none => g) g).map Prod.fst),
        f ∈ g.map Prod.fst ∨ ∃ e ∈ es, ∃ m, parseErrLine e = some (f, m) := by
    intro es
    induction es with
    | nil => intro g f hf; exact Or.inl hf
    | cons e rest ih =>
      intro g f hf
      simp only [List.foldl_cons] at hf
      rcases hpe : parseErrLine e with _ | fm
      · rw [hpe] at hf
        rcases ih g f hf with h | ⟨e2, he2, m, hm⟩
        · exact Or.inl h
        · exact Or.inr ⟨e2, by simp [he2], m, hm⟩
      · rw [hpe] at hf
        rcases ih (groupInsert g fm.1 fm.2) f hf with h | ⟨e2, he2, m, hm⟩
        · rcases groupInsert_keys g fm.1 fm.2 f h with h2 | h2
          · subst h2
            exact Or.inr ⟨e, by simp, fm.2, by rw [hpe]⟩
          · exact Or.inl h2
        · exact Or.inr ⟨e2, by simp [he2], m, hm⟩
  intro f hf
  rcases main errors [] f hf with h | h
  · simp at h
  · exact h

/-- C9: `autoFixBuild` never adds or removes a file — the path set of
`fixedFiles` equals the input's — and every file that is not named before
the first colon of any well-formed `path: message` build error keeps its
content unchanged. -/
theorem autoFixBuild_frame (fixer : String → String → List CodeIssueL → String)
    (projectFiles : List (String × String)) (buildErrors : List String) (p : String)
    (h : ∀ e ∈ buildErrors, ∀ f m, parseErrLine e = some (f, m) → f ≠ p) :
    ((autoFixBuild fixer projectFiles buildErrors).fixedFiles.map Prod.fst
        = projectFiles.map Prod.fst)
    ∧ (autoFixBuild fixer projectFiles buildErrors).fixedFiles.lookup p
        = projectFiles.lookup p := by
  constructor
  · exact autoFixGo_keys fixer _ _ _ _
  · apply autoFixGo_lookup
    intro hp
    rcases errorsByFile_keys_from buildErrors p hp with ⟨e, he, m, hm⟩
    exact h e he p m hm rfl

/-- Witness for `autoFixBuild_frame`: one error names `a.ts`; the path set
survives and the untouched file `b.ts` keeps its content even though the
fixer rewrites everything it is given. -/
theorem autoFixBuild_frame_witness :
    ((autoFixBuild (fun _ _ _ => "FIXED") [("a.ts", "x"), ("b.ts", "y")]
        ["a.ts: broken"]).fixedFiles.map Prod.fst = ["a.ts", "b.ts"])
    ∧ (autoFixBuild (fun _ _ _ => "FIXED") [("a.ts", "x"), ("b.ts", "y")]
        ["a.ts: broken"]).fixedFiles.lookup "b.ts" = some "y" := by
  have h := autoFixBuild_frame (fun _ _ _ => "FIXED") [("a.ts", "x"), ("b.ts", "y")]
    ["a.ts: broken"] "b.ts"
    (by
      intro e he f m hm
      simp at he
      subst he
      rw [show parseErrLine "a.ts: broken" = some ("a.ts", "broken") from rfl] at hm
      have hf : f = "a.ts" := by
        have := Option.some.inj hm
        exact congrArg Prod.fst this.symm
      subst hf
      decide)
  exact ⟨h.1, by rw [h.2]; rfl⟩

/-! ## Claim C5: the project cache key and the unused result cache -/

theorem char_toNat_inj {a b : Char} (h : a.toNat = b.toNat) : a = b :=
  Char.ext (UInt32.ext h)

theorem ltCharList_asymm : ∀ (a b : List Char),
    ltCharList a b = true → ltCharList b a = false := by
  intro a
  induction a with
  | nil =>
    intro b h
    cases b with
    | nil => simp [ltCharList] at h
    | cons c cs => rfl
  | cons x xs ih =>
    intro b h
    cases b with
    | nil => simp [ltCharList] at h
    | cons y ys =>
      simp only [ltCharList] at h ⊢
      by_cases h1 : x.toNat < y.toNat
      · have h2 : ¬y.toNat < x.toNat := by omega
        simp [h1, h2]
      · by_cases h2 : y.toNat < x.toNat
        · simp [h1, h2] at h
        · simp only [if_neg h1, if_neg h2] at h ⊢
          exact ih ys h

theorem ltCharList_conn : ∀ (a b : List Char),
    ltCharList a b = false → ltCharList b a = false → a = b := by
  intro a
  induction a with
  | nil =>
    intro b h1 _
    cases b with
    | nil => rfl
    | cons c cs => simp [ltCharList] at h1
  | cons x xs ih =>
    intro b h1 h2
    cases b with
    | nil => simp [ltCharList] at h2
    | cons y ys =>
      simp only [ltCharList] at h1 h2
      by_cases hxy : x.toNat < y.toNat
      · simp [hxy] at h1
      · by_cases hyx : y.toNat < x.toNat
        · simp [hyx, hxy] at h2
        · have hx : x = y := char_toNat_inj (by omega)
          subst hx
          simp only [if_neg hxy, if_neg hyx] at h1 h2
          rw [ih ys h1 h2]

theorem ltCharList_trans : ∀ (a b c : List Char),
    ltCharList a b = true → ltCharList b c = true → ltCharList a c = true := by
  intro a
  induction a with
  | nil =>
    intro b c h1 h2
    cases b with
    | nil => simp [ltCharList] at h1
    | cons y ys =>
      cases c with
      | nil => simp [ltCharList] at h2
      | cons z zs => rfl
  | cons x xs ih =>
    intro b c h1 h2
    cases b with
    | nil => simp [ltCharList] at h1
    | cons y ys =>
      cases c with
      | nil => simp [ltCharList] at h2
      | cons z zs =>
        simp only [ltCharList] at h1 h2 ⊢
        by_cases hxy : x.toNat < y.toNat
        · by_cases hyz : y.toNat < z.toNat
          · simp [show x.toNat < z.toNat by omega]
          · by_cases hzy : z.toNat < y.toNat
            · simp [hyz, hzy] at h2
            · simp [show x.toNat < z.toNat by omega]
        · by_cases hyx : y.toNat < x.toNat
          · simp [hxy, hyx] at h1
          · by_cases hyz : y.toNat < z.toNat
            · simp [show x.toNat < z.toNat by omega]
            · by_cases hzy : z.toNat < y.toNat
              · simp [hyz, hzy] at h2
              · have hxz : ¬x.toNat < z.toNat := by omega
                have hzx : ¬z.toNat < x.toNat := by omega
                simp only [if_neg hxy, if_neg hyx] at h1
                simp only [if_neg hyz, if_neg hzy] at h2
                simp only [if_neg hxz, if_neg hzx]
                exact ih ys zs h1 h2

theorem strLeJS_total (a b : String) : strLeJS a b = true ∨ strLeJS b a = true := by
  unfold strLeJS
  by_cases h : ltCharList b.data a.data = true
  · right
    simp [ltCharList_asymm _ _ h]
  · left
    simp at h
    simp [h]

theorem strLeJS_trans {a b c : String} (h1 : strLeJS a b = true) (h2 : strLeJS b c = true) :
    strLeJS a c = true := by
  unfold strLeJS at h1 h2 ⊢
  simp only [Bool.not_eq_true'] at h1 h2 ⊢
  by_cases h : ltCharList c.data a.data = true
  · exfalso
    by_cases hab : ltCharList a.data b.data = true
    · have h3 := ltCharList_trans c.data a.data b.data h hab
      rw [h2] at h3
      cases h3
    · simp only [Bool.not_eq_true] at hab
      have heq := ltCharList_conn a.data b.data hab h1
      rw [heq] at h
      rw [h2] at h
      cases h
  · simp only [Bool.not_eq_true] at h
    exact h

theorem strLeJS_antisymm {a b : String} (h1 : strLeJS a b = true) (h2 : strLeJS b a = true) :
    a = b := by
  unfold strLeJS at h1 h2
  simp only [Bool.not_eq_true'] at h1 h2
  exact String.ext (ltCharList_conn a.data b.data h2 h1)

theorem perm_insertStr (s : String) (l : List String) :
    List.Perm (insertStr s l) (s :: l) := by
  induction l with
  | nil => rfl
  | cons x xs ih =>
    simp only [insertStr]
    split
    · rfl
    · exact (ih.cons x).trans (List.Perm.swap s x xs)

theorem sorted_insertStr {s : String} {l : List String}
    (h : l.Sorted (fun a b => strLeJS a b = true)) :
    (insertStr s l).Sorted (fun a b => strLeJS a b = true) := by
  induction l with
  | nil => simp [insertStr]
  | cons x xs ih =>
    rw [List.sorted_cons] at h
    simp only [insertStr]
    split
    case isTrue hx =>
      rw [List.sorted_cons]
      refine ⟨?_, List.sorted_cons.mpr h⟩
      intro b hb
      rcases List.mem_cons.mp hb with hb | hb
      · subst hb; exact hx
      · exact strLeJS_trans hx (h.1 b hb)
    case isFalse hx =>
      rw [List.sorted_cons]
      refine ⟨?_, ih h.2⟩
      intro b hb
      have hmem : b ∈ s :: xs := (perm_insertStr s xs).mem_iff.mp hb
      rcases List.mem_cons.mp hmem with hb2 | hb2
      · subst hb2
        rcases strLeJS_total x b with ht | ht
        · exact ht
        · exact absurd ht hx
      · exact h.1 b hb2

theorem perm_sortStrs (l : List String) : List.Perm (sortStrs l) l := by
  induction l with
  | nil => rfl
  | cons x xs ih => exact (perm_insertStr x (sortStrs xs)).trans (ih.cons x)

theorem sorted_sortStrs (l : List String) :
    (sortStrs l).Sorted (fun a b => strLeJS a b = true) := by
  induction l with
  | nil => simp [sortStrs]
  | cons x xs ih => exact sorted_insertStr ih

theorem sortStrs_eq_of_perm {l1 l2 : List String} (h : List.Perm l1 l2) :
    sortStrs l1 = sortStrs l2 := by
  haveI : IsAntisymm String (fun a b => strLeJS a b = true) :=
    ⟨fun _ _ h1 h2 => strLeJS_antisymm h1 h2⟩
  exact List.eq_of_perm_of_sorted
    ((perm_sortStrs l1).trans (h.trans (perm_sortStrs l2).symm))
    (sorted_sortStrs l1) (sorted_sortStrs l2)

theorem lookup_eq_of_perm {l1 l2 : List (String × String)} (h : List.Perm l1 l2)
    (hnd : (l1.map Prod.fst).Nodup) (p : String) : l1.lookup p = l2.lookup p := by
  induction h with
  | nil => rfl
  | cons x h ih =>
    obtain ⟨k, v⟩ := x
    simp only [List.map, List.nodup_cons] at hnd
    cases hpk : p == k
    · simp only [List.lookup, hpk]
      exact ih hnd.2
    · simp [List.lookup, hpk]
  | swap a b l =>
    obtain ⟨ka, va⟩ := a
    obtain ⟨kb, vb⟩ := b
    simp only [List.map, List.nodup_cons, List.mem_cons] at hnd
    cases hpa : p == ka <;> cases hpb : p == kb <;>
      simp only [List.lookup, hpa, hpb]
    exfalso
    have e1 : p = ka := by simpa using hpa
    have e2 : p = kb := by simpa using hpb
    exact hnd.1 (Or.inl (e2 ▸ e1))
  | trans h1 h2 ih1 ih2 =>
    rw [ih1 hnd, ih2 (((h1.map Prod.fst).nodup_iff).mp hnd)]

theorem hashProjectFiles_perm {f1 f2 : List (String × String)} (h : List.Perm f1 f2)
    (hnd : (f1.map Prod.fst).Nodup) :
    hashProjectFiles f1 = hashProjectFiles f2 := by
  simp only [hashProjectFiles]
  rw [sortStrs_eq_of_perm (h.map Prod.fst)]
  rw [List.map_congr_left (fun p _ => by rw [lookup_eq_of_perm h hnd p])]

theorem toInt32_bounds (n : Int) : -2 ^ 31 ≤ toInt32 n ∧ toInt32 n < 2 ^ 31 := by
  unfold toInt32
  omega

set_option maxHeartbeats 1000000 in
theorem hashStep_inj_left {h1 h2 : Int} (c : Char)
    (b1 : -2 ^ 31 ≤ h1 ∧ h1 < 2 ^ 31) (b2 : -2 ^ 31 ≤ h2 ∧ h2 < 2 ^ 31)
    (hne : h1 ≠ h2) : hashStep h1 c ≠ hashStep h2 c := by
  intro heq
  apply hne
  unfold hashStep toInt32 at heq
  have h0 : (31 * h1 + (c.toNat : Int)) % 2 ^ 32 = (31 * h2 + (c.toNat : Int)) % 2 ^ 32 := by
    omega
  clear heq
  obtain ⟨k, hk⟩ : ∃ k : Int, 31 * (h1 - h2) = 2 ^ 32 * k :=
    ⟨(31 * h1 + (c.toNat : Int)) / 2 ^ 32 - (31 * h2 + (c.toNat : Int)) / 2 ^ 32, by omega⟩
  clear h0
  have hk2 : h1 - h2 = 2 ^ 32 * (3186588639 * k - 23 * (h1 - h2)) := by omega
  clear hk
  omega

theorem foldl_hashStep_bounds (l : List Char) (h : Int)
    (hb : -2 ^ 31 ≤ h ∧ h < 2 ^ 31) :
    -2 ^ 31 ≤ l.foldl hashStep h ∧ l.foldl hashStep h < 2 ^ 31 := by
  induction l generalizing h with
  | nil => exact hb
  | cons c cs ih =>
    exact ih _ ⟨(toInt32_bounds _).1, (toInt32_bounds _).2⟩

theorem foldl_hashStep_ne (l : List Char) {h1 h2 : Int}
    (b1 : -2 ^ 31 ≤ h1 ∧ h1 < 2 ^ 31) (b2 : -2 ^ 31 ≤ h2 ∧ h2 < 2 ^ 31)
    (hne : h1 ≠ h2) : l.foldl hashStep h1 ≠ l.foldl hashStep h2 := by
  induction l generalizing h1 h2 with
  | nil => exact hne
  | cons c cs ih =>
    exact ih ⟨(toInt32_bounds _).1, (toInt32_bounds _).2⟩
      ⟨(toInt32_bounds _).1, (toInt32_bounds _).2⟩ (hashStep_inj_left c b1 b2 hne)

theorem jsHash_single_char (pre suf : List Char) {c1 c2 : Char} (hne : c1 ≠ c2) :
    jsHash (pre ++ c1 :: suf) ≠ jsHash (pre ++ c2 :: suf) := by
  unfold jsHash
  rw [List.foldl_append, List.foldl_append]
  simp only [List.foldl_cons]
  have hb : -2 ^ 31 ≤ List.foldl hashStep 0 pre ∧ List.foldl hashStep 0 pre < 2 ^ 31 :=
    foldl_hashStep_bounds pre 0 (by omega)
  apply foldl_hashStep_ne _ ⟨(toInt32_bounds _).1, (toInt32_bounds _).2⟩
    ⟨(toInt32_bounds _).1, (toInt32_bounds _).2⟩
  have hcc : c1.toNat ≠ c2.toNat := fun h => hne (char_toNat_inj h)
  have hc1 : c1.toNat < 4294967296 := UInt32.toNat_lt _
  have hc2 : c2.toNat < 4294967296 := UInt32.toNat_lt _
  unfold hashStep toInt32
  intro heq
  omega

theorem mapSet_lookup_self (m : List (String × CacheEntryL)) (k : String) (v : CacheEntryL) :
    (mapSet m k v).lookup k = some v := by
  induction m with
  | nil => simp [mapSet, List.lookup]
  | cons x rest ih =>
    obtain ⟨k0, v0⟩ := x
    simp only [mapSet]
    split
    case isTrue h =>
      have hk : k0 = k := by simpa using h
      subst hk
      simp [List.lookup]
    case isFalse h =>
      have hk : (k == k0) = false := by
        have hne : ¬k = k0 := fun e => h (by simp [e])
        simpa using hne
      simp [List.lookup, hk, ih]

theorem mapSet_length_le (m : List (String × CacheEntryL)) (k : String) (v : CacheEntryL) :
    (mapSet m k v).length ≤ m.length + 1 := by
  induction m with
  | nil => simp [mapSet]
  | cons x rest ih =>
    obtain ⟨k0, v0⟩ := x
    simp only [mapSet]
    split
    · simp
    · simp only [List.length_cons]
      omega

theorem cacheResult_roundtrip (cache : List (String × CacheEntryL))
    (pf : List (String × String)) (res : BuildResultL) (now now2 : Nat)
    (hlen : cache.length ≤ 49) (hts : now2 - now < 5 * 60 * 1000) :
    (getCachedResult (cacheResult cache pf res now) pf now2).1 = some res := by
  unfold cacheResult getCachedResult
  dsimp only
  have hle := mapSet_length_le cache (hashProjectFiles pf)
    ⟨hashProjectFiles pf, res, now⟩
  rw [if_neg (by omega)]
  rw [mapSet_lookup_self]
  dsimp only
  rw [if_pos hts]

/-- C5 (corrected): reordering the keys of a byte-identical file map never
changes the cache key; a single-character change in a file content always
changes the numeric rolling hash of that content; the optimizer cache
itself round-trips (a result stored under the project hash is returned by
a lookup within the 5-minute TTL); but the pipeline never consults the
cache: a session call returns the cache state untouched and its build
result is exactly the fresh `runCICDPipeline` run. -/
theorem buildCache_amended
    (f1 f2 : List (String × String)) (hperm : List.Perm f1 f2)
    (hnd : (f1.map Prod.fst).Nodup)
    (pre suf : List Char) (c1 c2 : Char) (hc : c1 ≠ c2)
    (cache : List (String × CacheEntryL)) (pf : List (String × String))
    (res : BuildResultL) (now now2 : Nat)
    (hlen : cache.length ≤ 49) (hts : now2 - now < 5 * 60 * 1000)
    (st : List (String × CacheEntryL)) (ai : String → String → AiOut)
    (fixer : String → String → List CodeIssueL → String) (mr : Nat) :
    hashProjectFiles f1 = hashProjectFiles f2
    ∧ jsHash (pre ++ c1 :: suf) ≠ jsHash (pre ++ c2 :: suf)
    ∧ (getCachedResult (cacheResult cache pf res now) pf now2).1 = some res
    ∧ (runCICDPipelineSession st ai fixer pf mr).2.1 = st
    ∧ (runCICDPipelineSession st ai fixer pf mr).1 = runCICDPipeline ai fixer pf mr :=
  ⟨hashProjectFiles_perm hperm hnd, jsHash_single_char pre suf hc,
   cacheResult_roundtrip cache pf res now now2 hlen hts, rfl, rfl⟩

/-- C5 counterexample: the contents "0/" and "0`" differ in a single
character, yet the project file maps `[("a", "0/")]` and `[("a", "0`")]`
produce the same cache key (the outer 32-bit rolling hash collides); and
a second pipeline call whose session starts from a cache that already
holds the result of the first call still performs an analyze cycle
(cycles = 1, not 0) and returns the cache state untouched. -/
theorem buildCache_unused_cex :
    hashProjectFiles [("a", "0/")] = hashProjectFiles [("a", "0`")]
    ∧ ("0/" : String) ≠ "0`"
    ∧ (runCICDPipelineSession
        (cacheResult [] [("a.txt", "hello")]
          (runCICDPipelineSession [] (fun _ _ => ⟨[], [], []⟩) (fun c _ _ => c)
            [("a.txt", "hello")] 3).1 0)
        (fun _ _ => ⟨[], [], []⟩) (fun c _ _ => c) [("a.txt", "hello")] 3).2.2 = 1
    ∧ (runCICDPipelineSession
        (cacheResult [] [("a.txt", "hello")]
          (runCICDPipelineSession [] (fun _ _ => ⟨[], [], []⟩) (fun c _ _ => c)
            [("a.txt", "hello")] 3).1 0)
        (fun _ _ => ⟨[], [], []⟩) (fun c _ _ => c) [("a.txt", "hello")] 3).2.1
      = cacheResult [] [("a.txt", "hello")]
          (runCICDPipelineSession [] (fun _ _ => ⟨[], [], []⟩) (fun c _ _ => c)
            [("a.txt", "hello")] 3).1 0 :=
  ⟨by decide, by decide, rfl, rfl⟩

/-- A concrete build result used to exercise the cache round-trip. -/
def cacheProbeResult : BuildResultL :=
  { success := true, errors := [], warnings := [], fixed := false
    buildLog := "ok", fixedFiles := none, metrics := none, optimizations := none }

theorem buildCache_amended_witness :
    hashProjectFiles [("a", "x"), ("b", "y")] = hashProjectFiles [("b", "y"), ("a", "x")]
    ∧ jsHash (['p'] ++ 'a' :: []) ≠ jsHash (['p'] ++ 'b' :: [])
    ∧ (getCachedResult (cacheResult [] [("p.ts", "q")] cacheProbeResult 7) [("p.ts", "q")] 8).1
      = some cacheProbeResult
    ∧ (runCICDPipelineSession [] (fun _ _ => ⟨[], [], []⟩) (fun c _ _ => c)
        [("p.ts", "q")] 2).2.1 = []
    ∧ (runCICDPipelineSession [] (fun _ _ => ⟨[], [], []⟩) (fun c _ _ => c)
        [("p.ts", "q")] 2).1
      = runCICDPipeline (fun _ _ => ⟨[], [], []⟩) (fun c _ _ => c) [("p.ts", "q")] 2 :=
  buildCache_amended [("a", "x"), ("b", "y")] [("b", "y"), ("a", "x")] (by decide) (by decide)
    ['p'] [] 'a' 'b' (by decide) [] [("p.ts", "q")] cacheProbeResult 7 8 (by decide) (by decide)
    [] (fun _ _ => ⟨[], [], []⟩) (fun c _ _ => c) 2

end NexifyApp
